import Mathlib

/-!
Verification development for the merkle-trie-clock repository: a shallow
embedding in Lean of the hybrid logical clock (src/timestamp.rs), the XOR
merkle trie (src/merkle.rs) and the client message store
(client/src/mem_storage.rs with the Todo handler of
client/examples/todo/models.rs), together with theorems settling the
specified properties of these components.

Machine integers: the Rust code uses u64 hashes produced by widening a u32
murmur hash, so XOR never overflows and hashes are modelled as Nat.  The
i64 millis field is modelled as Int.  Where a usize computation can wrap
in Rust release builds, an explicit mod 2 to the 64 is applied.
-/

/- ===================== murmur hash (timestamp.rs hash) ===================== -/
def m32 : Nat := 4294967296

def rotl32 (x r : Nat) : Nat :=
  ((x % m32) * 2 ^ r + (x % m32) / 2 ^ (32 - r)) % m32

def murBlock (h k : Nat) : Nat :=
  let k1 := (k * 0xcc9e2d51) % m32
  let k2 := rotl32 k1 15
  let k3 := (k2 * 0x1b873593) % m32
  let h1 := h ^^^ k3
  let h2 := rotl32 h1 13
  (h2 * 5 + 0xe6546b64) % m32

def murTail (h : Nat) (tail : List Nat) : Nat :=
  match tail with
  | [] => h
  | _ =>
    let k := tail.reverse.foldl (fun a b => a * 256 + b) 0
    let k1 := (k * 0xcc9e2d51) % m32
    let k2 := rotl32 k1 15
    let k3 := (k2 * 0x1b873593) % m32
    h ^^^ k3

def murBlocks (h : Nat) (bs : List Nat) : Nat × List Nat :=
  match bs with
  | b0 :: b1 :: b2 :: b3 :: rest =>
    let k := b0 + b1 * 256 + b2 * 65536 + b3 * 16777216
    murBlocks (murBlock h k) rest
  | rest => (h, rest)

def fmix (h : Nat) : Nat :=
  let h1 := h ^^^ (h / 2 ^ 16)
  let h2 := (h1 * 0x85ebca6b) % m32
  let h3 := h2 ^^^ (h2 / 2 ^ 13)
  let h4 := (h3 * 0xc2b2ae35) % m32
  h4 ^^^ (h4 / 2 ^ 16)

/-- Modelled from the spec: the crate function murmurhash32::murmurhash3 used
by Timestamp::hash is not part of this repository; the spec describes it as
the 32-bit MurmurHash3 of the canonical string form.  This is the standard
MurmurHash3 x86 32-bit algorithm with seed 0 over a byte list (it agrees
with the published test vectors, for example hash of the ASCII bytes of
hello equals 0x248bfa47). -/
def murmur3 (bs : List Nat) : Nat :=
  let p := murBlocks 0 bs
  let h2 := murTail p.1 p.2
  fmix ((h2 ^^^ bs.length) % m32)

/-- UTF-8 encoding of one character, as byte values. -/
def charUtf8 (c : Char) : List Nat :=
  let n := c.toNat
  if n < 0x80 then [n]
  else if n < 0x800 then [0xC0 + n / 64, 0x80 + n % 64]
  else if n < 0x10000 then [0xE0 + n / 4096, 0x80 + n / 64 % 64, 0x80 + n % 64]
  else [0xF0 + n / 262144, 0x80 + n / 4096 % 64, 0x80 + n / 64 % 64, 0x80 + n % 64]

/-- UTF-8 bytes of a character list, meaning the byte view Rust exposes via
String::as_bytes. -/
def utf8Bytes (cs : List Char) : List Nat :=
  (cs.map charUtf8).flatten

/- ===================== digit characters and padding ===================== -/
def digitChar (n : Nat) : Char :=
  match n with
  | 0 => '0' | 1 => '1' | 2 => '2' | 3 => '3' | 4 => '4'
  | 5 => '5' | 6 => '6' | 7 => '7' | 8 => '8' | 9 => '9'
  | _ => '*'

def hexChar (n : Nat) : Char :=
  match n with
  | 0 => '0' | 1 => '1' | 2 => '2' | 3 => '3' | 4 => '4'
  | 5 => '5' | 6 => '6' | 7 => '7' | 8 => '8' | 9 => '9'
  | 10 => 'A' | 11 => 'B' | 12 => 'C' | 13 => 'D' | 14 => 'E' | 15 => 'F'
  | _ => '*'

def charDigit? (c : Char) : Option Nat :=
  if '0' ≤ c ∧ c ≤ '9' then some (c.toNat - 48) else none

def charHex? (c : Char) : Option Nat :=
  if '0' ≤ c ∧ c ≤ '9' then some (c.toNat - 48)
  else if 'A' ≤ c ∧ c ≤ 'F' then some (c.toNat - 55)
  else if 'a' ≤ c ∧ c ≤ 'f' then some (c.toNat - 87)
  else none

/-- Decimal digit list of a positive number, least significant first; the
fuel argument bounds the recursion and any fuel at least n suffices. -/
def natDigsAux (fuel n : Nat) : List Char :=
  match fuel with
  | 0 => []
  | f + 1 => if n = 0 then [] else digitChar (n % 10) :: natDigsAux f (n / 10)

def natDigs (n : Nat) : List Char :=
  if n = 0 then ['0'] else (natDigsAux n n).reverse

def hexDigsAux (fuel n : Nat) : List Char :=
  match fuel with
  | 0 => []
  | f + 1 => if n = 0 then [] else hexChar (n % 16) :: hexDigsAux f (n / 16)

def hexDigs (n : Nat) : List Char :=
  if n = 0 then ['0'] else (hexDigsAux n n).reverse

/-- Two decimal digits, zero padded (all call sites pass values below 100). -/
def pad2 (n : Nat) : List Char :=
  [digitChar (n / 10 % 10), digitChar (n % 10)]

/-- Three decimal digits, zero padded (call sites pass values below 1000). -/
def pad3 (n : Nat) : List Char :=
  [digitChar (n / 100 % 10), digitChar (n / 10 % 10), digitChar (n % 10)]

/-- Four decimal digits, zero padded (call sites pass values below 10000). -/
def pad4 (n : Nat) : List Char :=
  [digitChar (n / 1000 % 10), digitChar (n / 100 % 10),
   digitChar (n / 10 % 10), digitChar (n % 10)]

/-- Four uppercase hex digits, zero padded, with the natural widening that
the Rust format specifier 04X applies to larger values. -/
def hex4 (n : Nat) : List Char :=
  if n < 65536 then
    [hexChar (n / 4096 % 16), hexChar (n / 256 % 16),
     hexChar (n / 16 % 16), hexChar (n % 16)]
  else hexDigs n

/- ===================== civil calendar arithmetic ===================== -/
/-- Days before the given year of era, in the March-based 400-year era used
by the standard civil-from-days algorithm. -/
def dfy (y : Nat) : Nat := 365 * y + y / 4 - y / 100

/-- Days before a March-based month index mp (0 = March .. 11 = February). -/
def dbm (mp : Nat) : Nat := (153 * mp + 2) / 5

/-- Year of era from day of era. -/
def yoeOf (doe : Nat) : Nat := (doe - doe / 1460 + doe / 36524 - doe / 146096) / 365

/-- Civil date (year-in-era, month, day) from a day of era below 146097. -/
def civilOfDoe (doe : Nat) : Nat × Nat × Nat :=
  let yoe := yoeOf doe
  let doy := doe - (365 * yoe + yoe / 4 - yoe / 100)
  let mp := (5 * doy + 2) / 153
  let d := doy - (153 * mp + 2) / 5 + 1
  let m := if mp < 10 then mp + 3 else mp - 9
  (yoe + (if m ≤ 2 then 1 else 0), m, d)

/-- Day count since the unix epoch of a civil date, the standard
days-from-civil algorithm over Int (floor division, positive divisors). -/
def daysFromCivil (y : Int) (m d : Nat) : Int :=
  let y2 : Int := y - (if m ≤ 2 then 1 else 0)
  let era : Int := y2 / 400
  let yoe : Nat := (y2 % 400).toNat
  let mp : Nat := if 2 < m then m - 3 else m + 9
  let doy : Nat := (153 * mp + 2) / 5 + d - 1
  let doe : Nat := 365 * yoe + yoe / 4 - yoe / 100 + doy
  era * 146097 + (doe : Int) - 719468

/-- Smallest millisecond value the chrono datetime type can represent
(year -262143). -/
def chronoMinMillis : Int := daysFromCivil (-262143) 1 1 * 86400000

/-- Largest millisecond value the chrono datetime type can represent
(end of year 262142). -/
def chronoMaxMillis : Int := daysFromCivil 262142 12 31 * 86400000 + 86399999

/-- Year part of the rfc3339 rendering: four zero padded digits for years
0 to 9999, sign prefixed beyond that range. -/
def yearChars (y : Int) : List Char :=
  if y < 0 then '-' :: (if -y < 10000 then pad4 (-y).toNat else natDigs (-y).toNat)
  else if y ≤ 9999 then pad4 y.toNat
  else '+' :: natDigs y.toNat

/-- Modelled from the spec: the date rendering of Timestamp::millis_to_datetime
comes from the external chrono crate (DateTime::from_timestamp_millis followed
by to_rfc3339); the repository only fixes its observable format,
YYYY-MM-DDTHH:MM:SS.sss+00:00 with the fractional part omitted when the
milliseconds within the second are zero (see the test vectors in
timestamp.rs).  An out of range input falls back to the epoch, mirroring
unwrap_or_default. -/
def millisToDatetimeChars (millisIn : Int) : List Char :=
  let millis := if millisIn < chronoMinMillis ∨ chronoMaxMillis < millisIn then 0 else millisIn
  let days : Int := millis / 86400000
  let tod : Nat := (millis % 86400000).toNat
  let shifted : Int := days + 719468
  let era : Int := shifted / 146097
  let doe : Nat := (shifted % 146097).toNat
  let c := civilOfDoe doe
  let y : Int := era * 400 + c.1
  let ms := tod % 1000
  let s := tod / 1000 % 60
  let mi := tod / 60000 % 60
  let h := tod / 3600000
  yearChars y ++ '-' :: pad2 c.2.1 ++ '-' :: pad2 c.2.2 ++
    'T' :: pad2 h ++ ':' :: pad2 mi ++ ':' :: pad2 s ++
    (if ms = 0 then [] else '.' :: pad3 ms) ++ ['+', '0', '0', ':', '0', '0']

/- ===================== Timestamp (timestamp.rs) ===================== -/
structure Timestamp where
  millis : Int
  counter : Nat
  node : String
deriving DecidableEq

/-- Node part of the display form: the Rust format specifier 016 on a string
pads on the right with zero characters up to width 16. -/
def pad16Node (cs : List Char) : List Char :=
  cs ++ List.replicate (16 - cs.length) '0'

/-- Character list of the canonical display form of a timestamp,
date dash counter dash node, from the Display impl in timestamp.rs. -/
def Timestamp.toChars (t : Timestamp) : List Char :=
  millisToDatetimeChars t.millis ++ '-' :: hex4 t.counter ++ '-' :: pad16Node t.node.data

def Timestamp.toString (t : Timestamp) : String :=
  String.mk t.toChars

/-- Timestamp::hash, the murmur hash of the canonical string widened to u64. -/
def Timestamp.hash (t : Timestamp) : Nat :=
  murmur3 (utf8Bytes t.toChars)

/-- Timestamp::send from timestamp.rs, with the physical clock reading passed
as an argument; the first component is the post-call clock state (unchanged
on error) and the second the returned result. -/
def Timestamp.send (t : Timestamp) (phys : Int) : Timestamp × Except String Timestamp :=
  let lOld := t.millis
  let cOld := t.counter
  let lNew := max lOld phys
  let cNew := if lOld = lNew then cOld + 1 else 0
  if lNew - phys > 60000 then (t, .error "ClockDriftError")
  else if cNew > 65535 then (t, .error "OverflowError")
  else ({ t with millis := lNew, counter := cNew },
        .ok { t with millis := lNew, counter := cNew })

/-- Spec side description of send, written from the words of the claim:
commit millis2 = max millis phys and counter2 = counter + 1 when millis2
equals millis else 0, returning that snapshot; fail with a clock drift
error when millis2 - phys exceeds 60000 and with an overflow error when
counter2 exceeds 65535, leaving the clock unchanged on failure. -/
def Timestamp.sendSpec (t : Timestamp) (phys : Int) : Timestamp × Except String Timestamp :=
  let millis2 := max t.millis phys
  let counter2 := if millis2 = t.millis then t.counter + 1 else 0
  if millis2 - phys > 60000 then (t, .error "ClockDriftError")
  else if counter2 > 65535 then (t, .error "OverflowError")
  else (⟨millis2, counter2, t.node⟩, .ok ⟨millis2, counter2, t.node⟩)

/- ===================== parsing ===================== -/
/-- Split of a character list on a separator, matching the Rust str::split
iterator (keeps empty pieces, always yields at least one piece). -/
def splitChar (sep : Char) : List Char → List (List Char)
  | [] => [[]]
  | c :: cs =>
    if c = sep then [] :: splitChar sep cs
    else
      match splitChar sep cs with
      | [] => [[c]]
      | g :: gs => (c :: g) :: gs

/-- Join of character lists with a separator, matching slice join. -/
def intercalChar (sep : Char) : List (List Char) → List Char
  | [] => []
  | [g] => g
  | g :: gs => g ++ sep :: intercalChar sep gs

/-- Modelled from the spec: usize::from_str_radix with radix 16 is Rust
standard library code; it accepts an optional leading plus sign and one or
more hex digits of either case, and fails on overflow past the u64 range. -/
def parseHexNat (cs : List Char) : Option Nat :=
  let ds := match cs with
    | '+' :: rest => rest
    | rest => rest
  if ds.isEmpty then none
  else
    let folded := ds.foldl (fun acc c =>
      match acc, charHex? c with
      | some a, some v => if a * 16 + v < 18446744073709551616 then some (a * 16 + v) else none
      | _, _ => none) (some 0)
    folded

def twoDigits (c1 c2 : Char) : Option Nat :=
  match charDigit? c1, charDigit? c2 with
  | some a, some b => some (10 * a + b)
  | _, _ => none

def fourDigits (c1 c2 c3 c4 : Char) : Option Nat :=
  match charDigit? c1, charDigit? c2, charDigit? c3, charDigit? c4 with
  | some a, some b, some c, some d => some (1000 * a + 100 * b + 10 * c + d)
  | _, _, _, _ => none

/-- Fractional second part: either absent, or a dot followed by one to nine
decimal digits; yields the millisecond value (the first three digits, right
padded with zeros) and the remaining characters. -/
def parseFrac (cs : List Char) : Option (Nat × List Char) :=
  match cs with
  | '.' :: rest =>
    let p := rest.span (fun c => (charDigit? c).isSome)
    if p.1.length = 0 ∨ 9 < p.1.length then none
    else
      let padded := p.1 ++ List.replicate 3 '0'
      match padded with
      | a :: b :: c :: _ =>
        match charDigit? a, charDigit? b, charDigit? c with
        | some x, some y, some z => some (100 * x + 10 * y + z, p.2)
        | _, _, _ => none
      | _ => none
  | rest => some (0, rest)

/-- Offset part, consuming the rest of the string: Z or a signed HH:MM pair;
yields the offset in milliseconds. -/
def parseOffsetMs (cs : List Char) : Option Int :=
  match cs with
  | ['Z'] => some 0
  | ['z'] => some 0
  | sgn :: h1 :: h2 :: ':' :: m1 :: m2 :: [] =>
    match twoDigits h1 h2, twoDigits m1 m2 with
    | some hh, some mm =>
      if hh < 24 ∧ mm < 60 then
        if sgn = '+' then some ((hh * 3600 + mm * 60) * 1000)
        else if sgn = '-' then some (-((hh * 3600 + mm * 60 : Nat) * 1000 : Int))
        else none
      else none
    | _, _ => none
  | _ => none

def isLeapYear (y : Int) : Bool :=
  (y % 4 = 0 ∧ y % 100 ≠ 0) ∨ y % 400 = 0

def daysInMonth (y : Int) (m : Nat) : Nat :=
  match m with
  | 1 => 31 | 3 => 31 | 5 => 31 | 7 => 31 | 8 => 31 | 10 => 31 | 12 => 31
  | 4 => 30 | 6 => 30 | 9 => 30 | 11 => 30
  | 2 => if isLeapYear y then 29 else 28
  | _ => 0

/-- Modelled from the spec: chrono DateTime::parse_from_rfc3339 is external
to this repository; per the spec the first three dash separated parts of a
timestamp string rejoin to an RFC3339 date time whose parse yields the
millisecond value.  The accepted shape is a four digit year, two digit
month and day, a date time separator, two digit hour minute and second, an
optional fractional second and a numeric or Z offset; all ranges are
validated and the result is the signed millisecond count since the epoch. -/
def parseRfc3339Millis (cs : List Char) : Option Int :=
  match cs with
  | y1 :: y2 :: y3 :: y4 :: '-' :: o1 :: o2 :: '-' :: d1 :: d2 :: sep ::
      h1 :: h2 :: ':' :: n1 :: n2 :: ':' :: s1 :: s2 :: rest =>
    match fourDigits y1 y2 y3 y4, twoDigits o1 o2, twoDigits d1 d2,
        twoDigits h1 h2, twoDigits n1 n2, twoDigits s1 s2 with
    | some y, some mo, some d, some h, some mi, some s =>
      if sep = 'T' ∨ sep = 't' ∨ sep = ' ' then
        match parseFrac rest with
        | some (ms, rest2) =>
          match parseOffsetMs rest2 with
          | some off =>
            if 1 ≤ mo ∧ mo ≤ 12 ∧ 1 ≤ d ∧ d ≤ daysInMonth y mo ∧
                h < 24 ∧ mi < 60 ∧ s < 60 then
              some (daysFromCivil y mo d * 86400000 +
                (h * 3600000 + mi * 60000 + s * 1000 + ms : Nat) - off)
            else none
          | none => none
        | none => none
      else none
    | _, _, _, _, _, _ => none
  | _ => none

/-- Timestamp::parse from timestamp.rs: split on dash, require five parts,
rejoin the first three as the rfc3339 date time, read the counter as hex
and take the last part as the node. -/
def Timestamp.parse (s : String) : Except String Timestamp :=
  match splitChar '-' s.data with
  | [q1, q2, q3, q4, q5] =>
    match parseRfc3339Millis (intercalChar '-' [q1, q2, q3]) with
    | some millis =>
      match parseHexNat q4 with
      | some counter => .ok ⟨millis, counter, String.mk q5⟩
      | none => .error ("Parse timestamp failed: " ++ s)
    | none => .error ("Parse timestamp failed: " ++ s)
  | _ => .error ("Parse timestamp failed: " ++ s)

/- ===================== merkle trie (merkle.rs) ===================== -/
/-- Node of the merkle trie.  The children field models the Rust
Option of a BTreeMap from digit to node as an optional association list
kept in ascending key order (the iteration order of a BTreeMap). -/
inductive MerkleTrieNode where
  | mk (children : Option (List (Nat × MerkleTrieNode))) (hash : Nat) (stored : Bool) : MerkleTrieNode

def MerkleTrieNode.children : MerkleTrieNode → Option (List (Nat × MerkleTrieNode))
  | .mk c _ _ => c

def MerkleTrieNode.hash : MerkleTrieNode → Nat
  | .mk _ h _ => h

def MerkleTrieNode.stored : MerkleTrieNode → Bool
  | .mk _ _ s => s

/-- BTreeMap get on the ordered entry list. -/
def lookupChild (k : Nat) : List (Nat × MerkleTrieNode) → Option MerkleTrieNode
  | [] => none
  | (k2, v) :: rest => if k = k2 then some v else lookupChild k rest

/-- BTreeMap insert on the ordered entry list: replaces the value at an
existing key, otherwise inserts at the ordered position. -/
def insertChild (k : Nat) (v : MerkleTrieNode) : List (Nat × MerkleTrieNode) → List (Nat × MerkleTrieNode)
  | [] => [(k, v)]
  | (k2, v2) :: rest =>
    if k < k2 then (k, v) :: (k2, v2) :: rest
    else if k = k2 then (k, v) :: rest
    else (k2, v2) :: insertChild k v rest

def getChild (n : MerkleTrieNode) (k : Nat) : Option MerkleTrieNode :=
  match n.children with
  | none => none
  | some cs => lookupChild k cs

/-- Keys of the children map in ascending order, empty when absent. -/
def keysOf (n : MerkleTrieNode) : List Nat :=
  match n.children with
  | none => []
  | some cs => cs.map Prod.fst

/-- The leaf test of the diff walk: children absent or empty. -/
def leafish (n : MerkleTrieNode) : Bool :=
  match n.children with
  | none => true
  | some cs => cs.isEmpty

structure MerkleTrie where
  root : MerkleTrieNode
  length : Nat

def MerkleTrie.new : MerkleTrie := ⟨.mk none 0 false, 0⟩

def MerkleTrie.rootHash (tr : MerkleTrie) : Nat := tr.root.hash

def MerkleTrie.isEmpty (tr : MerkleTrie) : Bool := tr.length == 0

/-- Conversion of the i64 millis to usize, two complement wrap. -/
def i64ToUsize (m : Int) : Nat := (m % (2 ^ 64)).toNat

/-- Reading a usize value back as i64, two complement wrap. -/
def i64OfUsize (n : Nat) : Int :=
  if n % 2 ^ 64 < 2 ^ 63 then ((n % 2 ^ 64 : Nat) : Int) else ((n % 2 ^ 64 : Nat) : Int) - 2 ^ 64

/-- Base digits of a number, least significant first; fuel bounded, any
fuel at least cur suffices when the base is at least two (the Rust loop
does not terminate for base one and panics for base zero). -/
def keyDigsAux (BASE fuel cur : Nat) : List Nat :=
  match fuel with
  | 0 => []
  | f + 1 => if cur = 0 then [] else cur % BASE :: keyDigsAux BASE f (cur / BASE)

/-- MerkleTrie::timestamp_to_key: most significant first base digits of the
millis value cast to usize; millis zero yields the empty key. -/
def timestampToKey (BASE : Nat) (t : Timestamp) : List Nat :=
  (keyDigsAux BASE (i64ToUsize t.millis) (i64ToUsize t.millis)).reverse

/-- MerkleTrie::key_to_timestamp_millis: positional value of the key in the
given base, accumulated in a usize (wrapping) and cast to i64. -/
def keyToTimestampMillis (BASE : Nat) (key : List Nat) : Int :=
  i64OfUsize (key.foldl (fun a d => a * BASE + d) 0)

/-- The current child taken inside MerkleTrie::insert_key: the existing
child at the digit, or a fresh node whose stored flag says whether the
remaining key has length one (the map_or_else of the source). -/
def childOr (node : MerkleTrieNode) (ck : Nat) (str : Bool) : MerkleTrieNode :=
  match node.children with
  | some cs =>
    match lookupChild ck cs with
    | some c => c
    | none => .mk none 0 str
  | none => .mk none 0 str

/-- MerkleTrie::insert_key from merkle.rs, untouched slips included: the
returned replacement for the current node has its stored flag set to
whether the remaining key has length one. -/
def insertKey (node : MerkleTrieNode) (key : List Nat) (tsHash : Nat) : MerkleTrieNode :=
  match key with
  | [] => node
  | ck :: rest =>
    let currChild := childOr node ck rest.isEmpty
    let newChild : MerkleTrieNode :=
      .mk (insertKey currChild rest tsHash).children
        (currChild.hash ^^^ tsHash)
        (currChild.stored || rest.isEmpty)
    .mk (some (insertChild ck newChild (node.children.getD []))) node.hash rest.isEmpty

/-- MerkleTrie::insert: xor the timestamp hash into the root hash, then
rebuild along the key path and bump the length. -/
def MerkleTrie.insert (BASE : Nat) (tr : MerkleTrie) (t : Timestamp) : MerkleTrie :=
  let h := t.hash
  let key := timestampToKey BASE t
  let root1 : MerkleTrieNode := .mk tr.root.children (tr.root.hash ^^^ h) tr.root.stored
  ⟨insertKey root1 key h, tr.length + 1⟩

/-- Fold a list of timestamps into a fresh trie. -/
def buildTrie (BASE : Nat) (ts : List Timestamp) : MerkleTrie :=
  ts.foldl (MerkleTrie.insert BASE) MerkleTrie.new

/-- Hash of the child at a digit, zero when absent, as compared inside the
digit selection closure of MerkleTrie::diff. -/
def childHashOr0 (n : MerkleTrieNode) (k : Nat) : Nat :=
  match n.children with
  | none => 0
  | some cs =>
    match lookupChild k cs with
    | some c => c.hash
    | none => 0

/-- The value the digit selection closure of MerkleTrie::diff computes and
then discards: whether the child hashes at the digit differ. -/
def diffPredDiscarded (n1 n2 : MerkleTrieNode) (k : Nat) : Bool :=
  match n1.children, n2.children with
  | some cs1, some cs2 =>
    decide ((match lookupChild k cs1 with | some c => c.hash | none => 0) ≠
      (match lookupChild k cs2 with | some c => c.hash | none => 0))
  | none, none => false
  | _, _ => true

/-- The digit selection closure of MerkleTrie::diff as written in the
source: it computes the hash comparison, discards it with a statement
semicolon, and yields true for every digit. -/
def diffPred (n1 n2 : MerkleTrieNode) (k : Nat) : Bool :=
  let _ := diffPredDiscarded n1 n2 k
  true

mutual

/-- Computable node count of a trie node, used as recursion fuel. -/
def nodeSize : MerkleTrieNode → Nat
  | .mk cs _ _ => 1 + optSize cs

def optSize : Option (List (Nat × MerkleTrieNode)) → Nat
  | none => 0
  | some l => entsSize l

def entsSize : List (Nat × MerkleTrieNode) → Nat
  | [] => 0
  | (_, c) :: rest => nodeSize c + entsSize rest

end

/-- Result of the lockstep walk inside MerkleTrie::diff: the accumulated
digit path, the two cursor nodes at exit, and the two previous stored
flags (the stored flags of the last pair both cursors visited). -/
structure WalkRes where
  pre : List Nat
  n1 : Option MerkleTrieNode
  n2 : Option MerkleTrieNode
  s1 : Bool
  s2 : Bool

/-- Fuel driven form of the lockstep loop of MerkleTrie::diff; the first
cursor shrinks strictly at every descent, so any fuel of at least the size
of the first cursor makes the zero fuel branch unreachable (the
congruence lemma below makes this precise). -/
def walkDiffF : Nat → MerkleTrieNode → MerkleTrieNode → List Nat → WalkRes
  | 0, n1, n2, pre => ⟨pre, some n1, some n2, n1.stored, n2.stored⟩
  | f + 1, n1, n2, pre =>
    if leafish n1 || leafish n2 then ⟨pre, some n1, some n2, n1.stored, n2.stored⟩
    else
      let keyset := List.insertionSort (· ≤ ·) (keysOf n1 ++ keysOf n2)
      match keyset.find? (diffPred n1 n2) with
      | none => ⟨pre, some n1, some n2, n1.stored, n2.stored⟩
      | some k =>
        match getChild n1 k, getChild n2 k with
        | some m1, some m2 => walkDiffF f m1 m2 (pre ++ [k])
        | c1, c2 => ⟨pre ++ [k], c1, c2, n1.stored, n2.stored⟩

/-- The lockstep loop of MerkleTrie::diff, entered with both cursors
present; every round either exits or descends to the digit chosen by the
selection closure on the sorted union of the child key sets. -/
def walkDiff (n1 n2 : MerkleTrieNode) (pre : List Nat) : WalkRes :=
  walkDiffF (nodeSize n1) n1 n2 pre

/-- Fuel driven form of the loop below; the cursor shrinks strictly at
every descent, so any fuel of at least its size makes the zero fuel branch
unreachable. -/
def findFirstKeyLoopF : Nat → Nat → MerkleTrieNode → List Nat → Except String Int
  | _, 0, _, _ => .error "assertion failed: leaf node must be a store node"
  | BASE, f + 1, node, key =>
    if node.stored then .ok (keyToTimestampMillis BASE key)
    else
      match node.children with
      | none => .error "assertion failed: leaf node must be a store node"
      | some cs =>
        match cs.head? with
        | none => .ok (keyToTimestampMillis BASE key)
        | some (k, c) => findFirstKeyLoopF BASE f c (key ++ [k])

/-- The loop body of MerkleTrie::find_first_key_by_prefix: return the key
value at a stored node, panic when a non stored node has no children map,
descend to the first child otherwise, and return the accumulated key when
the children map is present but empty. -/
def findFirstKeyLoop (BASE : Nat) (node : MerkleTrieNode) (key : List Nat) : Except String Int :=
  findFirstKeyLoopF BASE (nodeSize node) node key

/-- MerkleTrie::find_first_key_by_prefix from merkle.rs. -/
def findFirstKey (BASE : Nat) (tree : Option MerkleTrieNode) (keyPre : List Nat) : Except String Int :=
  match tree with
  | none => .ok 9223372036854775807
  | some n => findFirstKeyLoop BASE n keyPre

/-- MerkleTrie::diff from merkle.rs, with panics modelled as errors; the
unreachable emptiness branch of the source is kept in place. -/
def MerkleTrie.diff (BASE : Nat) (a b : MerkleTrie) : Except String (Option Int) :=
  if a.isEmpty && b.isEmpty then .ok none
  else if a.isEmpty || b.isEmpty then .ok (some 0)
  else if b.isEmpty then (findFirstKey BASE (some b.root) []).map some
  else if a.rootHash = b.rootHash then .ok none
  else
    let w := walkDiff a.root b.root []
    if w.pre.isEmpty then .error "assertion failed: empty diff key path"
    else if w.s1 || w.s2 then .ok (some (keyToTimestampMillis BASE w.pre))
    else
      match w.n1, w.n2 with
      | some m1, none => (findFirstKey BASE (some m1) w.pre).map some
      | none, some m2 => (findFirstKey BASE (some m2) w.pre).map some
      | none, none => .ok (some (keyToTimestampMillis BASE w.pre))
      | some m1, some m2 =>
        match findFirstKey BASE (some m1) w.pre, findFirstKey BASE (some m2) w.pre with
        | .ok r1, .ok r2 => .ok (some (min r1 r2))
        | .error e, _ => .error e
        | _, .error e => .error e

/- ===================== messages and client store ===================== -/
/-- Message value type from core/src/models.rs. -/
inductive ValueType where
  | None
  | Number
  | String
deriving DecidableEq

/-- Per field change message from core/src/models.rs. -/
structure Message where
  timestamp : String
  dataset : String
  row : String
  column : String
  value_type : ValueType
  value : String
deriving DecidableEq

/-- Todo record from client/examples/todo/models.rs, the message handler
item type used with the in memory store. -/
structure Todo where
  id : String
  content : String
  todo_type : String
  tombstone : Int
deriving DecidableEq

/-- Modelled from the spec: str::parse for i8 is Rust standard library
code; it accepts an optional sign followed by one or more decimal digits
and fails outside the i8 range. -/
def parseI8 (s : String) : Option Int :=
  let p := match s.data with
    | '+' :: rest => (rest, (1 : Int))
    | '-' :: rest => (rest, (-1 : Int))
    | rest => (rest, (1 : Int))
  if p.1.isEmpty then none
  else
    let folded := p.1.foldl (fun acc c =>
      match acc, charDigit? c with
      | some a, some v => some (a * 10 + v)
      | _, _ => none) (some (0 : Int))
    match folded with
    | some v =>
      if -128 ≤ p.2 * v ∧ p.2 * v ≤ 127 then some (p.2 * v) else none
    | none => none

/-- Todo::from_message. -/
def Todo.fromMessage (m : Message) : Todo :=
  ⟨m.row, "", "", 0⟩

/-- Todo::handle_message: reject a wrong dataset or row, then set the named
column, parsing the tombstone value as an i8. -/
def Todo.handleMessage (todo : Todo) (m : Message) : Except String Todo :=
  if m.dataset ≠ "todos" then .error ("Wrong table: " ++ m.dataset)
  else if m.row ≠ todo.id then .error ("Wrong row: " ++ m.row)
  else
    match m.column with
    | "content" => .ok { todo with content := m.value }
    | "todo_type" => .ok { todo with todo_type := m.value }
    | "tombstone" =>
      match parseI8 m.value with
      | some v => .ok { todo with tombstone := v }
      | none => .error "invalid digit found in string"
    | other => .error ("Unknown type: " ++ other)

/-- HashMap insert modelled on an association list: replace in place or
append at the front when absent. -/
def mapInsert (k : String) (v : Todo) : List (String × Todo) → List (String × Todo)
  | [] => [(k, v)]
  | (k2, v2) :: rest =>
    if k = k2 then (k, v) :: rest else (k2, v2) :: mapInsert k v rest

def mapLookup (k : String) : List (String × Todo) → Option Todo
  | [] => none
  | (k2, v) :: rest => if k = k2 then some v else mapLookup k rest

/-- HashSet insert modelled on a list without duplicates. -/
def setInsert (x : String) (s : List String) : List String :=
  if x ∈ s then s else x :: s

/-- MemStorage state from client/src/mem_storage.rs (with the Todo item
type): the table name, the row map and the applied timestamp set. -/
structure MemStorage where
  table_name : String
  items : List (String × Todo)
  applied_messages : List String
deriving DecidableEq

/-- MemStorage::apply_item_table: skip an already applied timestamp;
otherwise create or mutate the row through the handler, then insert the
parsed timestamp into the merkle trie and record the timestamp as applied.
The returned triple is the post call store, trie and optional error, with
partial mutations kept on error exactly as the Rust early returns leave
them. -/
def applyItemTable (BASE : Nat) (st : MemStorage) (clock : MerkleTrie) (m : Message) :
    MemStorage × MerkleTrie × Option String :=
  if m.timestamp ∈ st.applied_messages then (st, clock, none)
  else
    match mapLookup m.row st.items with
    | none =>
      match (Todo.fromMessage m).handleMessage m with
      | .error e => (st, clock, some e)
      | .ok item1 =>
        let st1 := { st with items := mapInsert m.row item1 st.items }
        match Timestamp.parse m.timestamp with
        | .error e => (st1, clock, some e)
        | .ok ts =>
          ({ st1 with applied_messages := setInsert m.timestamp st1.applied_messages },
           MerkleTrie.insert BASE clock ts, none)
    | some item =>
      match item.handleMessage m with
      | .error e => (st, clock, some e)
      | .ok item1 =>
        let st1 := { st with items := mapInsert m.row item1 st.items }
        match Timestamp.parse m.timestamp with
        | .error e => (st1, clock, some e)
        | .ok ts =>
          ({ st1 with applied_messages := setInsert m.timestamp st1.applied_messages },
           MerkleTrie.insert BASE clock ts, none)

/-- The per message loop of MemStorage::apply_messages: messages for other
datasets are logged and skipped, the first handler error aborts the batch. -/
def applyLoop (BASE : Nat) (st : MemStorage) (clock : MerkleTrie) :
    List Message → MemStorage × MerkleTrie × Option String
  | [] => (st, clock, none)
  | m :: rest =>
    if m.dataset = st.table_name then
      match applyItemTable BASE st clock m with
      | (st1, c1, some e) => (st1, c1, some e)
      | (st1, c1, none) => applyLoop BASE st1 c1 rest
    else applyLoop BASE st clock rest

/-- MemStorage::apply_messages: sort the batch ascending by timestamp
string, then apply each message in order. -/
def applyMessages (BASE : Nat) (st : MemStorage) (clock : MerkleTrie) (msgs : List Message) :
    MemStorage × MerkleTrie × Option String :=
  applyLoop BASE st clock
    (List.insertionSort (fun a b => a.timestamp ≤ b.timestamp) msgs)

/- ===================== claim theorems, first group ===================== -/
instance exceptDecEq {ε α : Type} [DecidableEq ε] [DecidableEq α] : DecidableEq (Except ε α)
  | .ok a, .ok b =>
    if h : a = b then isTrue (by rw [h]) else isFalse (by intro hh; cases hh; exact h rfl)
  | .ok _, .error _ => isFalse (by intro hh; cases hh)
  | .error _, .ok _ => isFalse (by intro hh; cases hh)
  | .error e, .error f =>
    if h : e = f then isTrue (by rw [h]) else isFalse (by intro hh; cases hh; exact h rfl)

/- ===================== node hash characterization (C5) ===================== -/
/-- Node reached from a trie node by walking a digit path through the
children maps. -/
def nodeAtN (n : MerkleTrieNode) : List Nat → Option MerkleTrieNode
  | [] => some n
  | k :: rest =>
    match n.children with
    | none => none
    | some cs =>
      match lookupChild k cs with
      | none => none
      | some c => nodeAtN c rest

/-- Node of a trie at a digit path from the root. -/
def nodeAt (tr : MerkleTrie) (p : List Nat) : Option MerkleTrieNode :=
  nodeAtN tr.root p

def hashAtN (n : MerkleTrieNode) (p : List Nat) : Option Nat :=
  (nodeAtN n p).map MerkleTrieNode.hash

/-- XOR of the hashes of a list of timestamps. -/
def xorHashes (ts : List Timestamp) : Nat :=
  ts.foldr (fun t a => t.hash ^^^ a) 0

/-- Whether the key of a timestamp passes through the subtree rooted at
digit path p, meaning p is a prefix of the key. -/
def keyHits (BASE : Nat) (p : List Nat) (t : Timestamp) : Bool :=
  p.isPrefixOf (timestampToKey BASE t)

/-- Invariant of the fold building a trie: the hash found at every digit
path equals the XOR of the hashes of the inserted timestamps whose key
passes through that path, nodes existing exactly on inhabited paths. -/
def trieHashInv (BASE : Nat) (tr : MerkleTrie) (acc : List Timestamp) : Prop :=
  ∀ p, hashAtN tr.root p =
    if p = [] ∨ ∃ t ∈ acc, keyHits BASE p t then
      some (xorHashes (acc.filter (keyHits BASE p)))
    else none

/- ===================== diff totality on built tries (C10) ===================== -/
mutual

/-- Well formedness of trie nodes below the root: every node is stored or
has a non empty children map, hereditarily (this is what the assertion in
find_first_key_by_prefix relies on). -/
def GoodNode : MerkleTrieNode → Prop
  | .mk cs _ s => (s = true ∨ ∃ l, cs = some l ∧ l ≠ []) ∧ GoodOpt cs

def GoodOpt : Option (List (Nat × MerkleTrieNode)) → Prop
  | none => True
  | some l => GoodEnts l

def GoodEnts : List (Nat × MerkleTrieNode) → Prop
  | [] => True
  | (_, c) :: rest => GoodNode c ∧ GoodEnts rest

end

/-- A node with a non empty children map. -/
def hasKids (n : MerkleTrieNode) : Prop :=
  ∃ l, n.children = some l ∧ l ≠ []

/-- The tail of MerkleTrie::diff after the lockstep walk (the source binds
the walk result and branches on it; panics are errors). -/
def diffAfter (BASE : Nat) (w : WalkRes) : Except String (Option Int) :=
  if w.pre.isEmpty then .error "assertion failed: empty diff key path"
  else if w.s1 || w.s2 then .ok (some (keyToTimestampMillis BASE w.pre))
  else
    match w.n1, w.n2 with
    | some m1, none => (findFirstKey BASE (some m1) w.pre).map some
    | none, some m2 => (findFirstKey BASE (some m2) w.pre).map some
    | none, none => .ok (some (keyToTimestampMillis BASE w.pre))
    | some m1, some m2 =>
      match findFirstKey BASE (some m1) w.pre, findFirstKey BASE (some m2) w.pre with
      | .ok r1, .ok r2 => .ok (some (min r1 r2))
      | .error e, _ => .error e
      | _, .error e => .error e

/- ===================== calendar round trip facts ===================== -/
/-- Per year-of-era checks: yoeOf inverts dfy at both interval endpoints,
the year length is at most 366 days, and dfy is strictly increasing. -/
def chkYear (y : Nat) : Bool :=
  (yoeOf (dfy y) == y) &&
  (dfy (y + 1) ≤ 146096 → yoeOf (dfy (y + 1) - 1) == y : Bool) &&
  (dfy (y + 1) - dfy y ≤ 366 : Bool) &&
  (dfy y < dfy (y + 1) : Bool)

def chkAll : Nat → Bool
  | 0 => true
  | n + 1 => chkYear n && chkAll n

/-- Day-of-year to month-of-march-year checks: the month index is in range
and the day within the month is between 1 and 31. -/
def mpOf (doy : Nat) : Bool :=
  let mp := (5 * doy + 2) / 153
  (mp ≤ 11) && (dbm mp ≤ doy) && (doy < dbm (mp + 1)) && (doy - dbm mp + 1 ≤ 31)

def chkMon : Nat → Bool
  | 0 => true
  | n + 1 => mpOf n && chkMon n

/-- The canonical rendering shape of a chrono rfc3339 utc datetime with a
four digit year, as character data. -/
def renderDT (y mo dd hh mi ss ms : Nat) : List Char :=
  pad4 y ++ '-' :: pad2 mo ++ '-' :: pad2 dd ++ 'T' :: pad2 hh ++ ':' :: pad2 mi ++ ':' :: pad2 ss ++
    (if ms = 0 then [] else '.' :: pad3 ms) ++ ['+', '0', '0', ':', '0', '0']

@[simp] theorem children_mk (c : Option (List (Nat × MerkleTrieNode))) (h : Nat) (s : Bool) :
    (MerkleTrieNode.mk c h s).children = c := rfl

@[simp] theorem hash_mk (c : Option (List (Nat × MerkleTrieNode))) (h : Nat) (s : Bool) :
    (MerkleTrieNode.mk c h s).hash = h := rfl

@[simp] theorem stored_mk (c : Option (List (Nat × MerkleTrieNode))) (h : Nat) (s : Bool) :
    (MerkleTrieNode.mk c h s).stored = s := rfl

theorem nodeSize_pos (n : MerkleTrieNode) : 1 ≤ nodeSize n := by
  cases n with
  | mk cs h s => simp only [nodeSize]; omega

theorem lookupChild_nodeSize {k : Nat} {l : List (Nat × MerkleTrieNode)} {c : MerkleTrieNode}
    (h : lookupChild k l = some c) : nodeSize c ≤ entsSize l := by
  induction l with
  | nil => simp [lookupChild] at h
  | cons p rest ih =>
    obtain ⟨k2, v⟩ := p
    simp only [lookupChild] at h
    split at h
    · cases h; simp only [entsSize]; omega
    · have := ih h
      simp only [entsSize]
      omega

theorem getChild_nodeSize {n : MerkleTrieNode} {k : Nat} {c : MerkleTrieNode}
    (h : getChild n k = some c) : nodeSize c < nodeSize n := by
  unfold getChild at h
  cases n with
  | mk cs hs st =>
    simp only [MerkleTrieNode.children] at h
    cases cs with
    | none => simp at h
    | some l =>
      have := lookupChild_nodeSize h
      simp [nodeSize, optSize]
      omega

theorem walkDiffF_congr : ∀ (f : Nat) {g : Nat} (n1 n2 : MerkleTrieNode) (pre : List Nat),
    nodeSize n1 ≤ f → nodeSize n1 ≤ g → walkDiffF f n1 n2 pre = walkDiffF g n1 n2 pre := by
  intro f
  induction f using Nat.strong_induction_on with
  | _ f ih =>
    intro g n1 n2 pre hf hg
    have h1 := nodeSize_pos n1
    obtain ⟨f2, rfl⟩ : ∃ k, f = k + 1 := ⟨f - 1, by omega⟩
    obtain ⟨g2, rfl⟩ : ∃ k, g = k + 1 := ⟨g - 1, by omega⟩
    simp only [walkDiffF]
    split
    · rfl
    · split
      · rfl
      · rename_i k _
        match hx1 : getChild n1 k, hx2 : getChild n2 k with
        | some m1, some m2 =>
          simp only []
          have hm1 := getChild_nodeSize hx1
          exact ih f2 (by omega) m1 m2 (pre ++ [k]) (by omega) (by omega)
        | some m1, none => simp
        | none, some m2 => simp
        | none, none => simp

/-- Single step unfolding of walkDiff, recovering the loop recurrence. -/
theorem walkDiff_eq (n1 n2 : MerkleTrieNode) (pre : List Nat) :
    walkDiff n1 n2 pre =
      if leafish n1 || leafish n2 then ⟨pre, some n1, some n2, n1.stored, n2.stored⟩
      else
        match (List.insertionSort (· ≤ ·) (keysOf n1 ++ keysOf n2)).find? (diffPred n1 n2) with
        | none => ⟨pre, some n1, some n2, n1.stored, n2.stored⟩
        | some k =>
          match getChild n1 k, getChild n2 k with
          | some m1, some m2 => walkDiff m1 m2 (pre ++ [k])
          | c1, c2 => ⟨pre ++ [k], c1, c2, n1.stored, n2.stored⟩ := by
  have h1 := nodeSize_pos n1
  conv_lhs => rw [walkDiff]
  rw [show nodeSize n1 = (nodeSize n1 - 1) + 1 by omega]
  simp only [walkDiffF]
  split
  · rfl
  · split
    · rfl
    · rename_i k _
      match hx1 : getChild n1 k, hx2 : getChild n2 k with
      | some m1, some m2 =>
        simp only []
        have hm1 := getChild_nodeSize hx1
        exact walkDiffF_congr _ m1 m2 (pre ++ [k]) (by omega) (by omega)
      | some m1, none => simp
      | none, some m2 => simp
      | none, none => simp

theorem head_child_nodeSize {n : MerkleTrieNode} {cs : List (Nat × MerkleTrieNode)}
    {k : Nat} {c : MerkleTrieNode} (hc : n.children = some cs)
    (hh : cs.head? = some (k, c)) : nodeSize c < nodeSize n := by
  cases n with
  | mk co hs st =>
    simp only [MerkleTrieNode.children] at hc
    subst hc
    cases cs with
    | nil => simp at hh
    | cons p rest =>
      simp at hh
      cases p
      simp_all [nodeSize, optSize, entsSize]
      omega

theorem findFirstKeyLoopF_congr : ∀ (f : Nat) {g BASE : Nat} (node : MerkleTrieNode)
    (key : List Nat), nodeSize node ≤ f → nodeSize node ≤ g →
    findFirstKeyLoopF BASE f node key = findFirstKeyLoopF BASE g node key := by
  intro f
  induction f using Nat.strong_induction_on with
  | _ f ih =>
    intro g BASE node key hf hg
    have h1 := nodeSize_pos node
    obtain ⟨f2, rfl⟩ : ∃ k, f = k + 1 := ⟨f - 1, by omega⟩
    obtain ⟨g2, rfl⟩ : ∃ k, g = k + 1 := ⟨g - 1, by omega⟩
    simp only [findFirstKeyLoopF]
    split
    · rfl
    · match hc : node.children with
      | none => simp
      | some cs =>
        simp only []
        match hh : cs.head? with
        | none => simp
        | some (k, c) =>
          simp only []
          have hm := head_child_nodeSize hc hh
          exact ih f2 (by omega) c (key ++ [k]) (by omega) (by omega)

/-- Single step unfolding of findFirstKeyLoop. -/
theorem findFirstKeyLoop_eq (BASE : Nat) (node : MerkleTrieNode) (key : List Nat) :
    findFirstKeyLoop BASE node key =
      if node.stored then .ok (keyToTimestampMillis BASE key)
      else
        match node.children with
        | none => .error "assertion failed: leaf node must be a store node"
        | some cs =>
          match cs.head? with
          | none => .ok (keyToTimestampMillis BASE key)
          | some (k, c) => findFirstKeyLoop BASE c (key ++ [k]) := by
  have h1 := nodeSize_pos node
  conv_lhs => rw [findFirstKeyLoop]
  rw [show nodeSize node = (nodeSize node - 1) + 1 by omega]
  simp only [findFirstKeyLoopF]
  split
  · rfl
  · match hc : node.children with
    | none => simp
    | some cs =>
      simp only []
      match hh : cs.head? with
      | none => simp
      | some (k, c) =>
        simp only []
        have hm := head_child_nodeSize hc hh
        exact findFirstKeyLoopF_congr _ c (key ++ [k]) (by omega) (by omega)

/-- C7: for every starting clock state and physical reading, send commits
millis2 = max millis phys and counter2 = counter + 1 when the millis stood
still else 0 and returns that snapshot, fails with a clock drift error when
millis2 - phys > 60000 and with an overflow error when counter2 > 65535,
and on failure the clock state is unchanged; stated as the equality of the
code model of send with the function written from the words of the claim. -/
theorem send_matches_spec (t : Timestamp) (phys : Int) :
    t.send phys = t.sendSpec phys := by
  obtain ⟨ml, c, nd⟩ := t
  simp only [Timestamp.send, Timestamp.sendSpec]
  by_cases hm : max ml phys = ml
  · rw [hm]
  · have hm2 : ¬ (ml = max ml phys) := fun h => hm h.symm
    simp only [if_neg hm, if_neg hm2]

/-- C4 counterexample evidence: inserting the single timestamp with millis
one (key length one) marks the trie root stored although the root is the
node of the empty key only, and inserting millis zero (empty key) leaves
the root unmarked although the root is exactly the node reached by that
full key. -/
theorem insert_root_stored_flag_wrong :
    (buildTrie 3 [⟨1, 0, "local"⟩]).root.stored = true ∧
    timestampToKey 3 ⟨1, 0, "local"⟩ = [1] ∧
    (buildTrie 3 [⟨0, 0, "local"⟩]).root.stored = false ∧
    timestampToKey 3 ⟨0, 0, "local"⟩ = [] := by decide

/-- C1 counterexample evidence: with base ten tries holding 5 and 70 on one
side and 5 and 71 on the other, the root hashes differ, the child hashes at
digit five agree on both sides while the child hashes at digit seven
differ, yet the lockstep walk of diff descends into digit five. -/
theorem diff_descends_equal_hash_digit :
    (walkDiff (buildTrie 10 [⟨5, 0, "local"⟩, ⟨70, 0, "local"⟩]).root
        (buildTrie 10 [⟨5, 0, "local"⟩, ⟨71, 0, "local"⟩]).root []).pre = [5] ∧
    childHashOr0 (buildTrie 10 [⟨5, 0, "local"⟩, ⟨70, 0, "local"⟩]).root 5 =
      childHashOr0 (buildTrie 10 [⟨5, 0, "local"⟩, ⟨71, 0, "local"⟩]).root 5 ∧
    childHashOr0 (buildTrie 10 [⟨5, 0, "local"⟩, ⟨70, 0, "local"⟩]).root 7 ≠
      childHashOr0 (buildTrie 10 [⟨5, 0, "local"⟩, ⟨71, 0, "local"⟩]).root 7 ∧
    (buildTrie 10 [⟨5, 0, "local"⟩, ⟨70, 0, "local"⟩]).rootHash ≠
      (buildTrie 10 [⟨5, 0, "local"⟩, ⟨71, 0, "local"⟩]).rootHash := by decide

/-- C2 counterexample evidence: the base ten trie holding 10 and 5 differs
from the trie holding only 10 exactly in the timestamp with millis five,
yet diff returns ten, which is not a lower bound for five. -/
theorem diff_not_lower_bound :
    MerkleTrie.diff 10 (buildTrie 10 [⟨10, 0, "local"⟩, ⟨5, 0, "local"⟩])
      (buildTrie 10 [⟨10, 0, "local"⟩]) = .ok (some 10) ∧
    ¬ ((10 : Int) ≤ 5) := by decide

/-- C10 counterexample evidence: two non empty tries built only from
timestamps with millis zero (empty key) drive the lockstep walk to break
immediately, tripping the assertion that the accumulated digit path is non
empty. -/
theorem diff_asserts_on_zero_key_tries :
    MerkleTrie.diff 3 (buildTrie 3 [⟨0, 0, "local"⟩]) (buildTrie 3 [⟨0, 0, "remote"⟩]) =
      .error "assertion failed: empty diff key path" := by decide

/-- C3 counterexample evidence: two messages for the same dataset, row and
column, the larger timestamp applied in a first batch and the smaller in a
second batch; both batches apply without error and the record field ends
holding the value of the smaller timestamp. -/
theorem lww_fails_across_batches :
    (applyMessages 3 (applyMessages 3 ⟨"todos", [], []⟩ MerkleTrie.new
        [⟨"1970-01-01T00:00:00.002+00:00-0000-0000000000000001",
          "todos", "row1", "content", ValueType.String, "B"⟩]).1
      (applyMessages 3 ⟨"todos", [], []⟩ MerkleTrie.new
        [⟨"1970-01-01T00:00:00.002+00:00-0000-0000000000000001",
          "todos", "row1", "content", ValueType.String, "B"⟩]).2.1
      [⟨"1970-01-01T00:00:00.001+00:00-0000-0000000000000001",
        "todos", "row1", "content", ValueType.String, "A"⟩]).2.2 = none ∧
    (mapLookup "row1" (applyMessages 3 (applyMessages 3 ⟨"todos", [], []⟩ MerkleTrie.new
        [⟨"1970-01-01T00:00:00.002+00:00-0000-0000000000000001",
          "todos", "row1", "content", ValueType.String, "B"⟩]).1
      (applyMessages 3 ⟨"todos", [], []⟩ MerkleTrie.new
        [⟨"1970-01-01T00:00:00.002+00:00-0000-0000000000000001",
          "todos", "row1", "content", ValueType.String, "B"⟩]).2.1
      [⟨"1970-01-01T00:00:00.001+00:00-0000-0000000000000001",
        "todos", "row1", "content", ValueType.String, "A"⟩]).1.items).map Todo.content =
      some "A" ∧
    ("1970-01-01T00:00:00.001+00:00-0000-0000000000000001" : String).data <
      ("1970-01-01T00:00:00.002+00:00-0000-0000000000000001" : String).data := by decide

/- ===================== diff symmetry (C6) ===================== -/
theorem diffPred_find_head (n1 n2 : MerkleTrieNode) (l : List Nat) :
    l.find? (diffPred n1 n2) = l.head? := by
  cases l with
  | nil => rfl
  | cons a rest => simp [List.find?, diffPred]

theorem sortNat_comm (a b : List Nat) :
    List.insertionSort (· ≤ ·) (a ++ b) = List.insertionSort (· ≤ ·) (b ++ a) :=
  List.eq_of_perm_of_sorted
    ((List.perm_insertionSort _ _).trans
      (List.perm_append_comm.trans (List.perm_insertionSort _ _).symm))
    (List.sorted_insertionSort _ _) (List.sorted_insertionSort _ _)

theorem findFirstKeyLoopF_error {BASE f : Nat} {node : MerkleTrieNode} {key : List Nat}
    {e : String} (h : findFirstKeyLoopF BASE f node key = .error e) :
    e = "assertion failed: leaf node must be a store node" := by
  induction f generalizing node key with
  | zero => simp only [findFirstKeyLoopF] at h; cases h; rfl
  | succ f ih =>
    simp only [findFirstKeyLoopF] at h
    split at h
    · cases h
    · rename_i hns
      match hc : node.children with
      | none => rw [hc] at h; cases h; rfl
      | some cs =>
        rw [hc] at h
        simp only [] at h
        match hh : cs.head? with
        | none => rw [hh] at h; cases h
        | some (k, c) =>
          rw [hh] at h
          exact ih h

theorem findFirstKey_error {BASE : Nat} {t : Option MerkleTrieNode} {p : List Nat}
    {e : String} (h : findFirstKey BASE t p = .error e) :
    e = "assertion failed: leaf node must be a store node" := by
  match t with
  | none => cases h
  | some n => exact findFirstKeyLoopF_error h

theorem walkDiff_symm_aux : ∀ (N : Nat) (n1 n2 : MerkleTrieNode) (pre : List Nat),
    nodeSize n1 + nodeSize n2 ≤ N →
    walkDiff n2 n1 pre = ⟨(walkDiff n1 n2 pre).pre, (walkDiff n1 n2 pre).n2,
      (walkDiff n1 n2 pre).n1, (walkDiff n1 n2 pre).s2, (walkDiff n1 n2 pre).s1⟩ := by
  intro N
  induction N using Nat.strong_induction_on with
  | _ N ih =>
    intro n1 n2 pre hN
    rw [walkDiff_eq n2 n1, walkDiff_eq n1 n2]
    rw [Bool.or_comm (leafish n2) (leafish n1)]
    by_cases hleaf : (leafish n1 || leafish n2) = true
    · simp [hleaf]
    · simp only [hleaf, if_neg, Bool.false_eq_true]
      rw [diffPred_find_head, diffPred_find_head, sortNat_comm (keysOf n2) (keysOf n1)]
      match hhead : (List.insertionSort (· ≤ ·) (keysOf n1 ++ keysOf n2)).head? with
      | none => rfl
      | some k =>
        simp only []
        match hg1 : getChild n1 k, hg2 : getChild n2 k with
        | some m1, some m2 =>
          simp only []
          have s1 := getChild_nodeSize hg1
          have s2 := getChild_nodeSize hg2
          exact ih (N - 1) (by omega) m1 m2 (pre ++ [k]) (by omega)
        | some m1, none => simp
        | none, some m2 => simp
        | none, none => simp

theorem walkDiff_symm (n1 n2 : MerkleTrieNode) (pre : List Nat) :
    walkDiff n2 n1 pre = ⟨(walkDiff n1 n2 pre).pre, (walkDiff n1 n2 pre).n2,
      (walkDiff n1 n2 pre).n1, (walkDiff n1 n2 pre).s2, (walkDiff n1 n2 pre).s1⟩ :=
  walkDiff_symm_aux _ n1 n2 pre le_rfl

/-- C6: diff is symmetric, for every pair of tries over the same base. -/
theorem diff_symm (BASE : Nat) (a b : MerkleTrie) :
    MerkleTrie.diff BASE a b = MerkleTrie.diff BASE b a := by
  unfold MerkleTrie.diff
  by_cases hea : a.isEmpty = true <;> by_cases heb : b.isEmpty = true <;>
    simp only [hea, heb, Bool.and_self, Bool.and_true, Bool.and_false, Bool.true_and,
      Bool.false_and, Bool.or_self, Bool.or_true, Bool.true_or, Bool.false_or,
      if_true, if_false, Bool.false_eq_true]
  by_cases hr : a.rootHash = b.rootHash
  · simp [hr]
  · have hr2 : ¬ (b.rootHash = a.rootHash) := fun h => hr h.symm
    simp only [hr, hr2, if_neg, if_false]
    rw [walkDiff_symm a.root b.root]
    match hw : walkDiff a.root b.root [] with
    | ⟨pre, o1, o2, s1, s2⟩ =>
      simp only []
      rw [Bool.or_comm s2 s1]
      by_cases hp : pre.isEmpty = true
      · simp [hp]
      · simp only [hp, Bool.false_eq_true, if_neg, if_false]
        by_cases hs : (s1 || s2) = true
        · simp [hs]
        · simp only [hs, Bool.false_eq_true, if_neg, if_false]
          match o1, o2 with
          | some m1, none => rfl
          | none, some m2 => rfl
          | none, none => rfl
          | some m1, some m2 =>
            simp only []
            match hf1 : findFirstKey BASE (some m1) pre, hf2 : findFirstKey BASE (some m2) pre with
            | .ok r1, .ok r2 => simp [min_comm]
            | .ok r1, .error e => rfl
            | .error e, .ok r2 => rfl
            | .error e, .error f =>
              rw [findFirstKey_error hf1, findFirstKey_error hf2]

theorem lookup_insertChild_eq (k : Nat) (v : MerkleTrieNode) (l : List (Nat × MerkleTrieNode)) :
    lookupChild k (insertChild k v l) = some v := by
  induction l with
  | nil => simp [insertChild, lookupChild]
  | cons p rest ih =>
    obtain ⟨k2, v2⟩ := p
    simp only [insertChild]
    by_cases h1 : k < k2
    · simp [h1, lookupChild]
    · by_cases h2 : k = k2
      · simp [h1, h2, lookupChild]
      · simp only [if_neg h1, if_neg h2, lookupChild, ih]

theorem lookup_insertChild_ne {j k : Nat} (v : MerkleTrieNode) (l : List (Nat × MerkleTrieNode))
    (h : j ≠ k) : lookupChild j (insertChild k v l) = lookupChild j l := by
  induction l with
  | nil => simp [insertChild, lookupChild, h]
  | cons p rest ih =>
    obtain ⟨k2, v2⟩ := p
    simp only [insertChild]
    by_cases h1 : k < k2
    · simp only [if_pos h1, lookupChild, if_neg h]
    · by_cases h2 : k = k2
      · subst h2
        simp only [if_neg h1, if_pos rfl, lookupChild, if_neg h]
      · simp only [if_neg h1, if_neg h2, lookupChild, ih]

theorem nodeAtN_irrel (c : Option (List (Nat × MerkleTrieNode))) (h1 h2 : Nat)
    (s1 s2 : Bool) (q : Nat) (pr : List Nat) :
    nodeAtN (.mk c h1 s1) (q :: pr) = nodeAtN (.mk c h2 s2) (q :: pr) := rfl

theorem insertKey_hash (node : MerkleTrieNode) (key : List Nat) (h : Nat) :
    (insertKey node key h).hash = node.hash := by
  cases key with
  | nil => rfl
  | cons ck rest => rfl

theorem nodeAtN_mk_children (m : MerkleTrieNode) (h2 : Nat) (s2 : Bool) (q : Nat)
    (pr : List Nat) :
    nodeAtN (.mk m.children h2 s2) (q :: pr) = nodeAtN m (q :: pr) := by
  cases m; rfl

theorem hashAt_childOr (node : MerkleTrieNode) (ck : Nat) (str : Bool) (q : Nat)
    (pr : List Nat) :
    hashAtN (childOr node ck str) (q :: pr) = hashAtN node (ck :: q :: pr) := by
  unfold childOr hashAtN
  match hcn : node.children with
  | none => simp [nodeAtN, hcn, lookupChild]
  | some cs =>
    match hlk : lookupChild ck cs with
    | none => simp [nodeAtN, hcn, hlk, lookupChild]
    | some c => simp [nodeAtN, hcn, hlk]

theorem childOr_hash (node : MerkleTrieNode) (ck : Nat) (str : Bool) :
    (childOr node ck str).hash = (hashAtN node [ck]).getD 0 := by
  unfold childOr hashAtN
  match hcn : node.children with
  | none => simp [nodeAtN, hcn]
  | some cs =>
    match hlk : lookupChild ck cs with
    | none => simp [nodeAtN, hcn, hlk]
    | some c => simp [nodeAtN, hcn, hlk]

theorem hashAtN_mk_some (cs : List (Nat × MerkleTrieNode)) (hh : Nat) (ss : Bool)
    (j : Nat) (pr : List Nat) :
    hashAtN (.mk (some cs) hh ss) (j :: pr) =
      match lookupChild j cs with
      | none => none
      | some c => hashAtN c pr := by
  unfold hashAtN
  have hstep : nodeAtN (.mk (some cs) hh ss) (j :: pr) =
      match lookupChild j cs with
      | none => none
      | some c => nodeAtN c pr := by
    simp only [nodeAtN, children_mk]
  rw [hstep]
  match lookupChild j cs with
  | none => rfl
  | some c => rfl

theorem hashAtN_mk_none (hh : Nat) (ss : Bool) (j : Nat) (pr : List Nat) :
    hashAtN (.mk none hh ss) (j :: pr) = none := rfl

theorem hashAtN_mk_children (m : MerkleTrieNode) (h2 : Nat) (s2 : Bool) (q : Nat)
    (pr : List Nat) :
    hashAtN (.mk m.children h2 s2) (q :: pr) = hashAtN m (q :: pr) := by
  unfold hashAtN
  rw [nodeAtN_mk_children]

theorem insertKey_cons (node : MerkleTrieNode) (ck : Nat) (rest : List Nat) (h : Nat) :
    insertKey node (ck :: rest) h =
      .mk (some (insertChild ck
        (.mk (insertKey (childOr node ck rest.isEmpty) rest h).children
          ((childOr node ck rest.isEmpty).hash ^^^ h)
          ((childOr node ck rest.isEmpty).stored || rest.isEmpty))
        (node.children.getD []))) node.hash rest.isEmpty := rfl

theorem hashAt_insertKey (key : List Nat) : ∀ (node : MerkleTrieNode) (h : Nat)
    (p : List Nat), p ≠ [] →
    hashAtN (insertKey node key h) p =
      if p.isPrefixOf key then some ((hashAtN node p).getD 0 ^^^ h)
      else hashAtN node p := by
  induction key with
  | nil =>
    intro node h p hp
    have hnp : p.isPrefixOf [] = false := by
      cases p with
      | nil => exact absurd rfl hp
      | cons a l => rfl
    simp [insertKey, hnp]
  | cons ck rest ih =>
    intro node h p hp
    match p, hp with
    | j :: pr, _ =>
      rw [insertKey_cons, hashAtN_mk_some]
      by_cases hj : j = ck
      · subst hj
        rw [lookup_insertChild_eq]
        simp only []
        match pr with
        | [] =>
          have hpref : List.isPrefixOf [j] (j :: rest) = true := by
            simp [List.isPrefixOf]
          rw [hpref, if_pos rfl]
          have : hashAtN (MerkleTrieNode.mk
              (insertKey (childOr node j rest.isEmpty) rest h).children
              ((childOr node j rest.isEmpty).hash ^^^ h)
              ((childOr node j rest.isEmpty).stored || rest.isEmpty)) [] =
              some ((childOr node j rest.isEmpty).hash ^^^ h) := rfl
          rw [this, childOr_hash]
        | q :: pr2 =>
          rw [hashAtN_mk_children, ih (childOr node j rest.isEmpty) h (q :: pr2) (by simp),
            hashAt_childOr]
          have hpref2 : List.isPrefixOf (j :: q :: pr2) (j :: rest) =
              List.isPrefixOf (q :: pr2) rest := by
            simp [List.isPrefixOf]
          rw [hpref2]
      · rw [lookup_insertChild_ne _ _ hj]
        have hpref : List.isPrefixOf (j :: pr) (ck :: rest) = false := by
          simp [List.isPrefixOf, hj]
        rw [hpref]
        simp only [Bool.false_eq_true, if_false]
        match hcn : node.children with
        | none =>
          simp only [Option.getD, lookupChild]
          have hnode : node = .mk none node.hash node.stored := by
            cases node
            simp only [children_mk] at hcn
            subst hcn
            simp
          rw [hnode, hashAtN_mk_none]
        | some cs =>
          have hnode : node = .mk (some cs) node.hash node.stored := by
            cases node
            simp only [children_mk] at hcn
            subst hcn
            simp
          conv_rhs => rw [hnode, hashAtN_mk_some]
          rfl

theorem hashAtN_nil (n : MerkleTrieNode) : hashAtN n [] = some n.hash := rfl

theorem isPrefixOf_nil_left (l : List Nat) : List.isPrefixOf ([] : List Nat) l = true := by
  cases l <;> rfl

theorem hashAt_insert (BASE : Nat) (tr : MerkleTrie) (t : Timestamp) (p : List Nat) :
    hashAtN (MerkleTrie.insert BASE tr t).root p =
      if p.isPrefixOf (timestampToKey BASE t) then
        some ((hashAtN tr.root p).getD 0 ^^^ t.hash)
      else hashAtN tr.root p := by
  match p with
  | [] =>
    rw [hashAtN_nil]
    have h2 : (MerkleTrie.insert BASE tr t).root.hash = tr.root.hash ^^^ t.hash := by
      unfold MerkleTrie.insert
      simp only []
      rw [insertKey_hash]
      simp
    rw [h2]
    rw [isPrefixOf_nil_left, if_pos rfl, hashAtN_nil]
    rfl
  | q :: pr =>
    unfold MerkleTrie.insert
    simp only []
    rw [hashAt_insertKey _ _ _ _ (by simp), hashAtN_mk_children]

theorem xorHashes_append_single (l : List Timestamp) (t : Timestamp) :
    xorHashes (l ++ [t]) = xorHashes l ^^^ t.hash := by
  induction l with
  | nil => simp [xorHashes]
  | cons a l ih =>
    simp only [List.cons_append, xorHashes, List.foldr_cons] at ih ⊢
    rw [ih, Nat.xor_assoc]

theorem xorHashes_perm {l1 l2 : List Timestamp} (h : l1.Perm l2) :
    xorHashes l1 = xorHashes l2 := by
  induction h with
  | nil => rfl
  | cons x _ ih => simp only [xorHashes, List.foldr_cons] at ih ⊢; rw [ih]
  | swap x y l =>
    simp only [xorHashes, List.foldr_cons]
    rw [← Nat.xor_assoc, ← Nat.xor_assoc, Nat.xor_comm y.hash x.hash]
  | trans _ _ ih1 ih2 => exact ih1.trans ih2

theorem inv_empty (BASE : Nat) : trieHashInv BASE MerkleTrie.new [] := by
  intro p
  match p with
  | [] => simp [MerkleTrie.new, hashAtN, nodeAtN, xorHashes]
  | q :: pr => simp [MerkleTrie.new, hashAtN, nodeAtN]

theorem inv_insert (BASE : Nat) (tr : MerkleTrie) (acc : List Timestamp) (t : Timestamp)
    (h : trieHashInv BASE tr acc) :
    trieHashInv BASE (MerkleTrie.insert BASE tr t) (acc ++ [t]) := by
  intro p
  rw [hashAt_insert]
  by_cases hk : keyHits BASE p t = true
  · rw [show List.isPrefixOf p (timestampToKey BASE t) = true from hk, if_pos rfl]
    have hcond2 : (p = [] ∨ ∃ x ∈ acc ++ [t], keyHits BASE p x) := by
      right; exact ⟨t, by simp, hk⟩
    rw [if_pos hcond2, List.filter_append]
    have hft : List.filter (keyHits BASE p) [t] = [t] := by simp [hk]
    rw [hft, xorHashes_append_single]
    have hp := h p
    by_cases hcond : (p = [] ∨ ∃ x ∈ acc, keyHits BASE p x)
    · rw [if_pos hcond] at hp
      rw [hp]
      rfl
    · rw [if_neg hcond] at hp
      rw [hp]
      have hnil : List.filter (keyHits BASE p) acc = [] := by
        rw [List.filter_eq_nil_iff]
        intro x hx
        by_contra hxk
        exact hcond (Or.inr ⟨x, hx, by simpa using hxk⟩)
      rw [hnil]
      rfl
  · have hk0 : keyHits BASE p t = false := by
      cases hkk : keyHits BASE p t
      · rfl
      · exact absurd hkk hk
    rw [show List.isPrefixOf p (timestampToKey BASE t) = keyHits BASE p t from rfl, hk0]
    simp only [Bool.false_eq_true, if_false]
    have hp := h p
    rw [hp]
    have hcondiff : (p = [] ∨ ∃ x ∈ acc ++ [t], keyHits BASE p x) ↔
        (p = [] ∨ ∃ x ∈ acc, keyHits BASE p x) := by
      constructor
      · rintro (h1 | ⟨x, hx, hxk⟩)
        · exact Or.inl h1
        · rcases List.mem_append.mp hx with hx2 | hx2
          · exact Or.inr ⟨x, hx2, hxk⟩
          · exfalso
            have : x = t := by simpa using hx2
            subst this
            exact hk hxk
      · rintro (h1 | ⟨x, hx, hxk⟩)
        · exact Or.inl h1
        · exact Or.inr ⟨x, List.mem_append.mpr (Or.inl hx), hxk⟩
    have hfilt : List.filter (keyHits BASE p) (acc ++ [t]) =
        List.filter (keyHits BASE p) acc := by
      rw [List.filter_append]
      have : List.filter (keyHits BASE p) [t] = [] := by simp [hk]
      rw [this, List.append_nil]
    rw [hfilt]
    by_cases hcond : (p = [] ∨ ∃ x ∈ acc, keyHits BASE p x)
    · rw [if_pos hcond, if_pos (hcondiff.mpr hcond)]
    · rw [if_neg hcond, if_neg (fun hcc => hcond (hcondiff.mp hcc))]

theorem inv_fold (BASE : Nat) : ∀ (ts : List Timestamp) (tr : MerkleTrie)
    (acc : List Timestamp), trieHashInv BASE tr acc →
    trieHashInv BASE (ts.foldl (MerkleTrie.insert BASE) tr) (acc ++ ts) := by
  intro ts
  induction ts with
  | nil => intro tr acc h; simpa using h
  | cons t ts ih =>
    intro tr acc h
    have h2 := inv_insert BASE tr acc t h
    have h3 := ih (MerkleTrie.insert BASE tr t) (acc ++ [t]) h2
    simpa using h3

theorem hashAt_buildTrie (BASE : Nat) (ts : List Timestamp) (p : List Nat) :
    hashAtN (buildTrie BASE ts).root p =
      if p = [] ∨ ∃ t ∈ ts, keyHits BASE p t then
        some (xorHashes (ts.filter (keyHits BASE p)))
      else none := by
  have h := inv_fold BASE ts MerkleTrie.new [] (inv_empty BASE)
  simpa [buildTrie] using h p

/-- C5: for every list of inserted timestamps, every node of the resulting
trie carries the XOR of the hashes of the timestamps whose key passes
through its subtree; the root hash is the XOR of all inserted hashes; and
a permutation of the insertions yields the same root hash and the same
hash at every digit path. -/
theorem build_hash_xor (BASE : Nat) (ts ts2 : List Timestamp) (p : List Nat)
    (n : MerkleTrieNode) (hn : nodeAt (buildTrie BASE ts) p = some n)
    (hperm : ts.Perm ts2) :
    n.hash = xorHashes (ts.filter (keyHits BASE p)) ∧
    (buildTrie BASE ts).rootHash = xorHashes ts ∧
    (buildTrie BASE ts2).rootHash = (buildTrie BASE ts).rootHash ∧
    (nodeAt (buildTrie BASE ts2) p).map MerkleTrieNode.hash = some n.hash := by
  have hchar := hashAt_buildTrie BASE ts p
  have hhp : hashAtN (buildTrie BASE ts).root p = some n.hash := by
    unfold nodeAt at hn
    unfold hashAtN
    rw [hn]
    rfl
  have hcond : (p = [] ∨ ∃ t ∈ ts, keyHits BASE p t) := by
    by_contra hc
    rw [if_neg hc] at hchar
    rw [hchar] at hhp
    cases hhp
  rw [if_pos hcond] at hchar
  rw [hchar] at hhp
  have h1 : n.hash = xorHashes (ts.filter (keyHits BASE p)) := (Option.some.inj hhp).symm
  have hroot : ∀ (l : List Timestamp), (buildTrie BASE l).rootHash = xorHashes l := by
    intro l
    have hc := hashAt_buildTrie BASE l []
    rw [if_pos (Or.inl rfl)] at hc
    rw [hashAtN_nil] at hc
    have hfall : List.filter (keyHits BASE []) l = l := by
      apply List.filter_eq_self.mpr
      intro a _
      show List.isPrefixOf [] (timestampToKey BASE a) = true
      exact isPrefixOf_nil_left _
    rw [hfall] at hc
    exact Option.some.inj hc
  refine ⟨h1, hroot ts, ?_, ?_⟩
  · rw [hroot ts, hroot ts2, xorHashes_perm hperm]
  · have hchar2 := hashAt_buildTrie BASE ts2 p
    have hcond2 : (p = [] ∨ ∃ t ∈ ts2, keyHits BASE p t) := by
      rcases hcond with hc1 | ⟨t, ht, htk⟩
      · exact Or.inl hc1
      · exact Or.inr ⟨t, hperm.mem_iff.mp ht, htk⟩
    rw [if_pos hcond2] at hchar2
    show hashAtN (buildTrie BASE ts2).root p = some n.hash
    rw [hchar2, h1, xorHashes_perm (hperm.filter (keyHits BASE p))]

/-- Witness for the C5 theorem at a concrete pair of insertion orders. -/
theorem build_hash_xor_witness :
    (buildTrie 3 [⟨1, 0, "alpha"⟩, ⟨2, 0, "beta"⟩]).root.hash =
      xorHashes (List.filter (keyHits 3 []) [⟨1, 0, "alpha"⟩, ⟨2, 0, "beta"⟩]) ∧
    (buildTrie 3 [⟨1, 0, "alpha"⟩, ⟨2, 0, "beta"⟩]).rootHash =
      xorHashes [⟨1, 0, "alpha"⟩, ⟨2, 0, "beta"⟩] ∧
    (buildTrie 3 [⟨2, 0, "beta"⟩, ⟨1, 0, "alpha"⟩]).rootHash =
      (buildTrie 3 [⟨1, 0, "alpha"⟩, ⟨2, 0, "beta"⟩]).rootHash ∧
    (nodeAt (buildTrie 3 [⟨2, 0, "beta"⟩, ⟨1, 0, "alpha"⟩]) []).map MerkleTrieNode.hash =
      some (buildTrie 3 [⟨1, 0, "alpha"⟩, ⟨2, 0, "beta"⟩]).root.hash :=
  build_hash_xor 3 [⟨1, 0, "alpha"⟩, ⟨2, 0, "beta"⟩] [⟨2, 0, "beta"⟩, ⟨1, 0, "alpha"⟩] []
    (buildTrie 3 [⟨1, 0, "alpha"⟩, ⟨2, 0, "beta"⟩]).root rfl
    (List.Perm.swap (⟨2, 0, "beta"⟩ : Timestamp) (⟨1, 0, "alpha"⟩ : Timestamp) [])

/- ===================== apply idempotence (C9) ===================== -/
theorem handleMessage_idem {t t2 : Todo} {m : Message}
    (h : t.handleMessage m = .ok t2) : t2.handleMessage m = .ok t2 := by
  unfold Todo.handleMessage at h ⊢
  split at h
  · cases h
  · rename_i hds
    split at h
    · cases h
    · rename_i hrow
      split at h
      · rename_i hcol
        cases h
        rw [if_neg hds, if_neg (show ¬ (m.row ≠ (⟨t.id, m.value, t.todo_type,
          t.tombstone⟩ : Todo).id) from hrow)]
      · rename_i hcol
        cases h
        rw [if_neg hds, if_neg (show ¬ (m.row ≠ (⟨t.id, t.content, m.value,
          t.tombstone⟩ : Todo).id) from hrow)]
      · rename_i hcol
        split at h
        · rename_i v hv
          cases h
          rw [if_neg hds, if_neg (show ¬ (m.row ≠ (⟨t.id, t.content, t.todo_type,
            v⟩ : Todo).id) from hrow)]
        · cases h
      · cases h

theorem mapLookup_insert_self (k : String) (v : Todo) (l : List (String × Todo)) :
    mapLookup k (mapInsert k v l) = some v := by
  induction l with
  | nil => simp [mapInsert, mapLookup]
  | cons p rest ih =>
    obtain ⟨k2, v2⟩ := p
    simp only [mapInsert]
    by_cases h : k = k2
    · simp [h, mapLookup]
    · simp only [if_neg h, mapLookup, ih]

theorem mapInsert_self {k : String} {v : Todo} {l : List (String × Todo)}
    (h : mapLookup k l = some v) : mapInsert k v l = l := by
  induction l with
  | nil => simp [mapLookup] at h
  | cons p rest ih =>
    obtain ⟨k2, v2⟩ := p
    simp only [mapLookup] at h
    simp only [mapInsert]
    by_cases hk : k = k2
    · rw [if_pos hk] at h
      cases h
      simp [hk]
    · rw [if_neg hk] at h
      rw [if_neg hk, ih h]

theorem setInsert_mem_self (x : String) (s : List String) : x ∈ setInsert x s := by
  unfold setInsert
  by_cases h : x ∈ s
  · simp only [if_pos h]
    exact h
  · simp [h]

theorem setInsert_mem_of_mem {y : String} (x : String) {s : List String} (h : y ∈ s) :
    y ∈ setInsert x s := by
  unfold setInsert
  by_cases hx : x ∈ s
  · simp only [if_pos hx]
    exact h
  · simp [hx, h]

theorem applyItemTable_skip {BASE : Nat} {st : MemStorage} {c : MerkleTrie} {m : Message}
    (h : m.timestamp ∈ st.applied_messages) :
    applyItemTable BASE st c m = (st, c, none) := by
  unfold applyItemTable
  rw [if_pos h]

theorem applyItemTable_applied_mono {BASE : Nat} {st : MemStorage} {c : MerkleTrie}
    {m : Message} {st2 : MemStorage} {c2 : MerkleTrie} {e : Option String} {x : String}
    (h : applyItemTable BASE st c m = (st2, c2, e)) (hx : x ∈ st.applied_messages) :
    x ∈ st2.applied_messages := by
  unfold applyItemTable at h
  split at h
  · simp only [Prod.mk.injEq] at h
    obtain ⟨rfl, rfl, rfl⟩ := h
    exact hx
  · split at h
    · split at h
      · simp only [Prod.mk.injEq] at h
        obtain ⟨rfl, rfl, rfl⟩ := h
        exact hx
      · split at h
        · simp only [Prod.mk.injEq] at h
          obtain ⟨rfl, rfl, rfl⟩ := h
          exact hx
        · simp only [Prod.mk.injEq] at h
          obtain ⟨rfl, rfl, rfl⟩ := h
          exact setInsert_mem_of_mem _ hx
    · split at h
      · simp only [Prod.mk.injEq] at h
        obtain ⟨rfl, rfl, rfl⟩ := h
        exact hx
      · split at h
        · simp only [Prod.mk.injEq] at h
          obtain ⟨rfl, rfl, rfl⟩ := h
          exact hx
        · simp only [Prod.mk.injEq] at h
          obtain ⟨rfl, rfl, rfl⟩ := h
          exact setInsert_mem_of_mem _ hx

theorem applyItemTable_applied_after_ok {BASE : Nat} {st : MemStorage} {c : MerkleTrie}
    {m : Message} {st2 : MemStorage} {c2 : MerkleTrie}
    (h : applyItemTable BASE st c m = (st2, c2, none)) :
    m.timestamp ∈ st2.applied_messages := by
  unfold applyItemTable at h
  split at h
  · rename_i happ
    simp only [Prod.mk.injEq] at h
    obtain ⟨rfl, rfl, -⟩ := h
    exact happ
  · split at h
    · split at h
      · simp only [Prod.mk.injEq] at h
        obtain ⟨rfl, rfl, h3⟩ := h
        cases h3
      · split at h
        · simp only [Prod.mk.injEq] at h
          obtain ⟨rfl, rfl, h3⟩ := h
          cases h3
        · simp only [Prod.mk.injEq] at h
          obtain ⟨rfl, rfl, -⟩ := h
          exact setInsert_mem_self _ _
    · split at h
      · simp only [Prod.mk.injEq] at h
        obtain ⟨rfl, rfl, h3⟩ := h
        cases h3
      · split at h
        · simp only [Prod.mk.injEq] at h
          obtain ⟨rfl, rfl, h3⟩ := h
          cases h3
        · simp only [Prod.mk.injEq] at h
          obtain ⟨rfl, rfl, -⟩ := h
          exact setInsert_mem_self _ _

theorem applyItemTable_none_hmerr {BASE : Nat} {st : MemStorage} {c : MerkleTrie}
    {m : Message} {e : String} (hnm : m.timestamp ∉ st.applied_messages)
    (hlk : mapLookup m.row st.items = none)
    (hhm : (Todo.fromMessage m).handleMessage m = .error e) :
    applyItemTable BASE st c m = (st, c, some e) := by
  unfold applyItemTable
  rw [if_neg hnm]
  simp only [hlk, hhm]

theorem applyItemTable_none_perr {BASE : Nat} {st : MemStorage} {c : MerkleTrie}
    {m : Message} {item1 : Todo} {e : String} (hnm : m.timestamp ∉ st.applied_messages)
    (hlk : mapLookup m.row st.items = none)
    (hhm : (Todo.fromMessage m).handleMessage m = .ok item1)
    (hp : Timestamp.parse m.timestamp = .error e) :
    applyItemTable BASE st c m =
      ({ st with items := mapInsert m.row item1 st.items }, c, some e) := by
  unfold applyItemTable
  rw [if_neg hnm]
  simp only [hlk, hhm, hp]

theorem applyItemTable_some_hmerr {BASE : Nat} {st : MemStorage} {c : MerkleTrie}
    {m : Message} {item : Todo} {e : String} (hnm : m.timestamp ∉ st.applied_messages)
    (hlk : mapLookup m.row st.items = some item)
    (hhm : item.handleMessage m = .error e) :
    applyItemTable BASE st c m = (st, c, some e) := by
  unfold applyItemTable
  rw [if_neg hnm]
  simp only [hlk, hhm]

theorem applyItemTable_some_perr {BASE : Nat} {st : MemStorage} {c : MerkleTrie}
    {m : Message} {item item1 : Todo} {e : String} (hnm : m.timestamp ∉ st.applied_messages)
    (hlk : mapLookup m.row st.items = some item)
    (hhm : item.handleMessage m = .ok item1)
    (hp : Timestamp.parse m.timestamp = .error e) :
    applyItemTable BASE st c m =
      ({ st with items := mapInsert m.row item1 st.items }, c, some e) := by
  unfold applyItemTable
  rw [if_neg hnm]
  simp only [hlk, hhm, hp]

theorem applyItemTable_err_idem {BASE : Nat} {st : MemStorage} {c : MerkleTrie}
    {m : Message} {st2 : MemStorage} {c2 : MerkleTrie} {err : String}
    (h : applyItemTable BASE st c m = (st2, c2, some err)) :
    applyItemTable BASE st2 c2 m = (st2, c2, some err) := by
  unfold applyItemTable at h
  split at h
  · simp only [Prod.mk.injEq] at h
    obtain ⟨-, -, h3⟩ := h
    cases h3
  · rename_i hnm
    split at h
    · rename_i hlk
      split at h
      · rename_i e hhm
        simp only [Prod.mk.injEq] at h
        obtain ⟨rfl, rfl, h3⟩ := h
        cases h3
        exact applyItemTable_none_hmerr hnm hlk hhm
      · rename_i item1 hhm
        split at h
        · rename_i e hp
          simp only [Prod.mk.injEq] at h
          obtain ⟨rfl, rfl, h3⟩ := h
          cases h3
          have hlk2 : mapLookup m.row
              ({ st with items := mapInsert m.row item1 st.items } : MemStorage).items =
              some item1 := mapLookup_insert_self _ _ _
          have hnm2 : m.timestamp ∉
              ({ st with items := mapInsert m.row item1 st.items } : MemStorage).applied_messages :=
            hnm
          have hres := @applyItemTable_some_perr BASE _ c _ _ _ _
            hnm2 hlk2 (handleMessage_idem hhm) hp
          rw [mapInsert_self hlk2] at hres
          exact hres
        · simp only [Prod.mk.injEq] at h
          obtain ⟨-, -, h3⟩ := h
          cases h3
    · rename_i item hlk
      split at h
      · rename_i e hhm
        simp only [Prod.mk.injEq] at h
        obtain ⟨rfl, rfl, h3⟩ := h
        cases h3
        exact applyItemTable_some_hmerr hnm hlk hhm
      · rename_i item1 hhm
        split at h
        · rename_i e hp
          simp only [Prod.mk.injEq] at h
          obtain ⟨rfl, rfl, h3⟩ := h
          cases h3
          have hlk2 : mapLookup m.row
              ({ st with items := mapInsert m.row item1 st.items } : MemStorage).items =
              some item1 := mapLookup_insert_self _ _ _
          have hnm2 : m.timestamp ∉
              ({ st with items := mapInsert m.row item1 st.items } : MemStorage).applied_messages :=
            hnm
          have hres := @applyItemTable_some_perr BASE _ c _ _ _ _
            hnm2 hlk2 (handleMessage_idem hhm) hp
          rw [mapInsert_self hlk2] at hres
          exact hres
        · simp only [Prod.mk.injEq] at h
          obtain ⟨-, -, h3⟩ := h
          cases h3

theorem applyItemTable_table_name {BASE : Nat} (st : MemStorage) (c : MerkleTrie)
    (m : Message) : (applyItemTable BASE st c m).1.table_name = st.table_name := by
  unfold applyItemTable
  split
  · rfl
  · split
    · split
      · rfl
      · split
        · rfl
        · rfl
    · split
      · rfl
      · split
        · rfl
        · rfl

theorem applyLoop_table_name {BASE : Nat} : ∀ (L : List Message) (st : MemStorage)
    (c : MerkleTrie), (applyLoop BASE st c L).1.table_name = st.table_name := by
  intro L
  induction L with
  | nil => intro st c; rfl
  | cons m L2 ih =>
    intro st c
    simp only [applyLoop]
    split
    · match h1 : applyItemTable BASE st c m with
      | (st3, c3, some e) =>
        simp only []
        have h2 := @applyItemTable_table_name BASE st c m
        rw [h1] at h2
        exact h2
      | (st3, c3, none) =>
        simp only []
        have h2 := @applyItemTable_table_name BASE st c m
        rw [h1] at h2
        exact (ih st3 c3).trans h2
    · exact ih st c

theorem applyLoop_applied_mono {BASE : Nat} : ∀ (L : List Message) (st : MemStorage)
    (c : MerkleTrie) {x : String}, x ∈ st.applied_messages →
    x ∈ (applyLoop BASE st c L).1.applied_messages := by
  intro L
  induction L with
  | nil => intro st c x hx; exact hx
  | cons m L2 ih =>
    intro st c x hx
    simp only [applyLoop]
    split
    · match h1 : applyItemTable BASE st c m with
      | (st3, c3, some e) =>
        simp only []
        exact applyItemTable_applied_mono h1 hx
      | (st3, c3, none) =>
        simp only []
        exact ih st3 c3 (applyItemTable_applied_mono h1 hx)
    · exact ih st c hx

theorem applyLoop_idem {BASE : Nat} : ∀ (L : List Message) (st : MemStorage)
    (c : MerkleTrie),
    applyLoop BASE (applyLoop BASE st c L).1 (applyLoop BASE st c L).2.1 L =
      applyLoop BASE st c L := by
  intro L
  induction L with
  | nil => intro st c; rfl
  | cons m L2 ih =>
    intro st c
    by_cases hds : m.dataset = st.table_name
    · conv_lhs =>
        rw [show applyLoop BASE st c (m :: L2) =
          (if m.dataset = st.table_name then
            match applyItemTable BASE st c m with
            | (st1, c1, some e) => (st1, c1, some e)
            | (st1, c1, none) => applyLoop BASE st1 c1 L2
          else applyLoop BASE st c L2) from rfl]
      rw [if_pos hds]
      match h1 : applyItemTable BASE st c m with
      | (st3, c3, some e) =>
        simp only []
        have htn := @applyItemTable_table_name BASE st c m
        rw [h1] at htn
        have hds2 : m.dataset = st3.table_name := by rw [htn, hds]
        conv_rhs =>
          rw [show applyLoop BASE st c (m :: L2) =
            (if m.dataset = st.table_name then
              match applyItemTable BASE st c m with
              | (st1, c1, some e) => (st1, c1, some e)
              | (st1, c1, none) => applyLoop BASE st1 c1 L2
            else applyLoop BASE st c L2) from rfl]
          rw [if_pos hds, h1]
        simp only [applyLoop]
        rw [if_pos hds2, applyItemTable_err_idem h1]
      | (st3, c3, none) =>
        simp only []
        have htn := @applyItemTable_table_name BASE st c m
        rw [h1] at htn
        conv_rhs =>
          rw [show applyLoop BASE st c (m :: L2) =
            (if m.dataset = st.table_name then
              match applyItemTable BASE st c m with
              | (st1, c1, some e) => (st1, c1, some e)
              | (st1, c1, none) => applyLoop BASE st1 c1 L2
            else applyLoop BASE st c L2) from rfl]
          rw [if_pos hds, h1]
        simp only [applyLoop]
        have htn2 : (applyLoop BASE st3 c3 L2).1.table_name = st.table_name :=
          (applyLoop_table_name L2 st3 c3).trans htn
        have hds3 : m.dataset = (applyLoop BASE st3 c3 L2).1.table_name := by
          rw [htn2, hds]
        rw [if_pos hds3]
        have hmem : m.timestamp ∈ (applyLoop BASE st3 c3 L2).1.applied_messages :=
          applyLoop_applied_mono L2 st3 c3 (applyItemTable_applied_after_ok h1)
        rw [applyItemTable_skip hmem]
        exact ih st3 c3
    · conv_lhs =>
        rw [show applyLoop BASE st c (m :: L2) =
          (if m.dataset = st.table_name then
            match applyItemTable BASE st c m with
            | (st1, c1, some e) => (st1, c1, some e)
            | (st1, c1, none) => applyLoop BASE st1 c1 L2
          else applyLoop BASE st c L2) from rfl]
      rw [if_neg hds]
      conv_rhs =>
        rw [show applyLoop BASE st c (m :: L2) =
          (if m.dataset = st.table_name then
            match applyItemTable BASE st c m with
            | (st1, c1, some e) => (st1, c1, some e)
            | (st1, c1, none) => applyLoop BASE st1 c1 L2
          else applyLoop BASE st c L2) from rfl]
        rw [if_neg hds]
      simp only [applyLoop]
      have htn2 : (applyLoop BASE st c L2).1.table_name = st.table_name :=
        applyLoop_table_name L2 st c
      have hds3 : ¬ m.dataset = (applyLoop BASE st c L2).1.table_name := by
        rw [htn2]; exact hds
      rw [if_neg hds3]
      exact ih st c

/-- C9: apply_messages is idempotent: for every store state, clock and
message batch, applying the batch a second time leaves the store, the
merkle trie and the reported outcome exactly as after the first
application (this holds whether or not the first application aborted on a
handler or parse error). -/
theorem applyMessages_idem (BASE : Nat) (st : MemStorage) (c : MerkleTrie)
    (msgs : List Message) :
    applyMessages BASE (applyMessages BASE st c msgs).1
      (applyMessages BASE st c msgs).2.1 msgs = applyMessages BASE st c msgs := by
  unfold applyMessages
  exact applyLoop_idem _ st c

theorem goodNode_def (cs : Option (List (Nat × MerkleTrieNode))) (h : Nat) (s : Bool) :
    GoodNode (.mk cs h s) ↔ ((s = true ∨ ∃ l, cs = some l ∧ l ≠ []) ∧ GoodOpt cs) := by
  rw [GoodNode]

theorem goodEnts_lookup {k : Nat} {l : List (Nat × MerkleTrieNode)} {c : MerkleTrieNode}
    (hl : lookupChild k l = some c) (hg : GoodEnts l) : GoodNode c := by
  induction l with
  | nil => simp [lookupChild] at hl
  | cons p rest ih =>
    obtain ⟨k2, v⟩ := p
    rw [GoodEnts] at hg
    simp only [lookupChild] at hl
    split at hl
    · cases hl; exact hg.1
    · exact ih hl hg.2

theorem goodEnts_insertChild {k : Nat} {v : MerkleTrieNode} {l : List (Nat × MerkleTrieNode)}
    (hg : GoodEnts l) (hv : GoodNode v) : GoodEnts (insertChild k v l) := by
  induction l with
  | nil => simp only [insertChild]; rw [GoodEnts, GoodEnts]; exact ⟨hv, trivial⟩
  | cons p rest ih =>
    obtain ⟨k2, v2⟩ := p
    rw [GoodEnts] at hg
    simp only [insertChild]
    by_cases h1 : k < k2
    · rw [if_pos h1, GoodEnts, GoodEnts]
      exact ⟨hv, hg⟩
    · by_cases h2 : k = k2
      · rw [if_neg h1, if_pos h2, GoodEnts]
        exact ⟨hv, hg.2⟩
      · rw [if_neg h1, if_neg h2, GoodEnts]
        exact ⟨hg.1, ih hg.2⟩

theorem insertChild_ne_nil (k : Nat) (v : MerkleTrieNode) (l : List (Nat × MerkleTrieNode)) :
    insertChild k v l ≠ [] := by
  cases l with
  | nil => simp [insertChild]
  | cons p rest =>
    obtain ⟨k2, v2⟩ := p
    simp only [insertChild]
    split
    · simp
    · split <;> simp

theorem childOr_good {node : MerkleTrieNode} (ck : Nat) (str : Bool)
    (hg : GoodOpt node.children) : GoodOpt (childOr node ck str).children := by
  unfold childOr
  match hcn : node.children with
  | none => exact trivial
  | some cs =>
    rw [hcn] at hg
    rw [GoodOpt] at hg
    show GoodOpt (match lookupChild ck cs with
      | some c => c
      | none => MerkleTrieNode.mk none 0 str).children
    match hlk : lookupChild ck cs with
    | none => exact trivial
    | some c =>
      have hgood := goodEnts_lookup hlk hg
      cases c with
      | mk cc hh ss =>
        rw [goodNode_def] at hgood
        exact hgood.2

theorem insertKey_good (key : List Nat) : ∀ (node : MerkleTrieNode) (h : Nat),
    GoodOpt node.children →
    GoodOpt (insertKey node key h).children ∧
    (key ≠ [] → ∃ l, (insertKey node key h).children = some l ∧ l ≠ []) := by
  induction key with
  | nil =>
    intro node h hg
    exact ⟨hg, fun hk => absurd rfl hk⟩
  | cons ck rest ih =>
    intro node h hg
    rw [insertKey_cons]
    constructor
    · rw [children_mk, GoodOpt]
      have hcc := childOr_good ck rest.isEmpty hg
      have hrec := ih (childOr node ck rest.isEmpty) h hcc
      have hnewgood : GoodNode (.mk (insertKey (childOr node ck rest.isEmpty) rest h).children
          ((childOr node ck rest.isEmpty).hash ^^^ h)
          ((childOr node ck rest.isEmpty).stored || rest.isEmpty)) := by
        rw [goodNode_def]
        refine ⟨?_, hrec.1⟩
        match hrest : rest with
        | [] => left; simp
        | q :: r2 =>
          right
          exact hrec.2 (by simp)
      have hents : GoodEnts (node.children.getD []) := by
        match hcn : node.children with
        | none => rw [Option.getD, GoodEnts]; trivial
        | some cs =>
          rw [hcn] at hg
          rw [GoodOpt] at hg
          exact hg
      exact goodEnts_insertChild hents hnewgood
    · intro _
      exact ⟨_, by rw [children_mk], insertChild_ne_nil _ _ _⟩

theorem getChild_good {n c : MerkleTrieNode} {k : Nat} (hg : GoodNode n)
    (h : getChild n k = some c) : GoodNode c := by
  cases n with
  | mk cs hh ss =>
    rw [goodNode_def] at hg
    unfold getChild at h
    rw [children_mk] at h
    match hcs : cs, h with
    | some l, h =>
      have hents : GoodEnts l := by
        have := hg.2
        rw [GoodOpt] at this
        exact this
      exact goodEnts_lookup h hents

theorem insert_rootOk {BASE : Nat} {tr : MerkleTrie} (t : Timestamp)
    (hg : GoodOpt tr.root.children) :
    GoodOpt (MerkleTrie.insert BASE tr t).root.children := by
  unfold MerkleTrie.insert
  simp only []
  exact (insertKey_good _ _ _ (by rw [children_mk]; exact hg)).1

theorem insert_hasKids_mono {BASE : Nat} {tr : MerkleTrie} (t : Timestamp)
    (hk : hasKids tr.root) : hasKids (MerkleTrie.insert BASE tr t).root := by
  unfold MerkleTrie.insert
  simp only []
  match hkey : timestampToKey BASE t with
  | [] =>
    unfold insertKey
    obtain ⟨l, hl, hne⟩ := hk
    exact ⟨l, by rw [children_mk]; exact hl, hne⟩
  | ck :: rest =>
    rw [insertKey_cons]
    exact ⟨_, by rw [children_mk], insertChild_ne_nil _ _ _⟩

theorem insert_hasKids_of_key {BASE : Nat} {tr : MerkleTrie} {t : Timestamp}
    (hkey : timestampToKey BASE t ≠ []) :
    hasKids (MerkleTrie.insert BASE tr t).root := by
  unfold MerkleTrie.insert
  simp only []
  match hx : timestampToKey BASE t, hkey with
  | ck :: rest, _ =>
    rw [insertKey_cons]
    exact ⟨_, by rw [children_mk], insertChild_ne_nil _ _ _⟩

theorem build_rootOk (BASE : Nat) (ts : List Timestamp) :
    GoodOpt (buildTrie BASE ts).root.children := by
  suffices h : ∀ (l : List Timestamp) (tr : MerkleTrie), GoodOpt tr.root.children →
      GoodOpt (l.foldl (MerkleTrie.insert BASE) tr).root.children by
    exact h ts MerkleTrie.new (by rw [MerkleTrie.new]; exact trivial)
  intro l
  induction l with
  | nil => intro tr h; exact h
  | cons t l2 ih => intro tr h; exact ih _ (insert_rootOk t h)

theorem build_hasKids (BASE : Nat) (ts : List Timestamp)
    (h : ∃ t ∈ ts, timestampToKey BASE t ≠ []) :
    hasKids (buildTrie BASE ts).root := by
  suffices hs : ∀ (l : List Timestamp) (tr : MerkleTrie),
      (hasKids tr.root ∨ ∃ t ∈ l, timestampToKey BASE t ≠ []) →
      hasKids (l.foldl (MerkleTrie.insert BASE) tr).root by
    exact hs ts MerkleTrie.new (Or.inr h)
  intro l
  induction l with
  | nil =>
    intro tr h2
    rcases h2 with h2 | ⟨t, ht, _⟩
    · exact h2
    · cases ht
  | cons t l2 ih =>
    intro tr h2
    apply ih
    rcases h2 with h2 | ⟨t2, ht2, hk2⟩
    · exact Or.inl (insert_hasKids_mono t h2)
    · rcases List.mem_cons.mp ht2 with rfl | ht3
      · exact Or.inl (insert_hasKids_of_key hk2)
      · exact Or.inr ⟨t2, ht3, hk2⟩

theorem build_length (BASE : Nat) (ts : List Timestamp) :
    (buildTrie BASE ts).length = ts.length := by
  suffices h : ∀ (l : List Timestamp) (tr : MerkleTrie),
      (l.foldl (MerkleTrie.insert BASE) tr).length = tr.length + l.length by
    have := h ts MerkleTrie.new
    rw [MerkleTrie.new] at this
    simpa [buildTrie, MerkleTrie.new] using this
  intro l
  induction l with
  | nil => intro tr; simp
  | cons t l2 ih =>
    intro tr
    simp only [List.foldl_cons, ih, List.length_cons]
    rw [show (MerkleTrie.insert BASE tr t).length = tr.length + 1 from rfl]
    omega

theorem findFirstKeyLoop_ok {BASE : Nat} : ∀ (N : Nat) (n : MerkleTrieNode)
    (key : List Nat), nodeSize n ≤ N → GoodNode n →
    ∃ v, findFirstKeyLoop BASE n key = .ok v := by
  intro N
  induction N using Nat.strong_induction_on with
  | _ N ih =>
    intro n key hN hg
    rw [findFirstKeyLoop_eq]
    by_cases hs : n.stored = true
    · rw [if_pos hs]
      exact ⟨_, rfl⟩
    · rw [if_neg hs]
      cases n with
      | mk cs hh ss =>
        rw [goodNode_def] at hg
        rcases hg.1 with h1 | ⟨l, hl, hne⟩
        · exact absurd (by rw [stored_mk]; exact h1) hs
        · rw [children_mk, hl]
          match hll : l, hne with
          | (k, c) :: rest, _ =>
            simp only [List.head?]
            have hgood : GoodNode c := by
              have h2 := hg.2
              rw [hl, GoodOpt, GoodEnts] at h2
              exact h2.1
            have hsz : nodeSize c < nodeSize (MerkleTrieNode.mk cs hh ss) := by
              apply @head_child_nodeSize _ ((k, c) :: rest) k c
              · rw [children_mk]; exact hl
              · rfl
            have hN1 : 1 ≤ nodeSize (MerkleTrieNode.mk cs hh ss) := nodeSize_pos _
            exact ih (N - 1) (by omega) c (key ++ [k]) (by omega) hgood

theorem leafish_false_of_hasKids {n : MerkleTrieNode} (h : hasKids n) :
    leafish n = false := by
  obtain ⟨l, hl, hne⟩ := h
  unfold leafish
  rw [hl]
  cases l with
  | nil => exact absurd rfl hne
  | cons a r => rfl

theorem keysOf_ne_nil {n : MerkleTrieNode} (h : hasKids n) : keysOf n ≠ [] := by
  obtain ⟨l, hl, hne⟩ := h
  unfold keysOf
  rw [hl]
  cases l with
  | nil => exact absurd rfl hne
  | cons a r => simp

theorem goodNode_intro {n : MerkleTrieNode} (h1 : n.stored = true ∨ hasKids n)
    (h2 : GoodOpt n.children) : GoodNode n := by
  cases n with
  | mk cs hh ss =>
    rw [goodNode_def]
    refine ⟨?_, h2⟩
    rcases h1 with h1 | ⟨l, hl, hne⟩
    · exact Or.inl h1
    · exact Or.inr ⟨l, hl, hne⟩

theorem walkDiff_good : ∀ (N : Nat) (n1 n2 : MerkleTrieNode) (pre : List Nat),
    nodeSize n1 ≤ N → GoodNode n1 → GoodNode n2 →
    ((∀ m, (walkDiff n1 n2 pre).n1 = some m → GoodNode m) ∧
     (∀ m, (walkDiff n1 n2 pre).n2 = some m → GoodNode m) ∧
     ∃ suf, (walkDiff n1 n2 pre).pre = pre ++ suf) := by
  intro N
  induction N using Nat.strong_induction_on with
  | _ N ih =>
    intro n1 n2 pre hN hg1 hg2
    rw [walkDiff_eq]
    by_cases hlf : (leafish n1 || leafish n2) = true
    · rw [if_pos hlf]
      refine ⟨fun m hm => ?_, fun m hm => ?_, [], by simp⟩
      · cases Option.some.inj hm; exact hg1
      · cases Option.some.inj hm; exact hg2
    · rw [if_neg hlf]
      match hf : (List.insertionSort (· ≤ ·) (keysOf n1 ++ keysOf n2)).find? (diffPred n1 n2) with
      | none =>
        refine ⟨fun m hm => ?_, fun m hm => ?_, [], by simp⟩
        · cases Option.some.inj hm; exact hg1
        · cases Option.some.inj hm; exact hg2
      | some k =>
        simp only []
        match hx1 : getChild n1 k, hx2 : getChild n2 k with
        | some m1, some m2 =>
          simp only []
          have hgm1 := getChild_good hg1 hx1
          have hgm2 := getChild_good hg2 hx2
          have hsz := getChild_nodeSize hx1
          have h1 := nodeSize_pos n1
          have hrec := ih (N - 1) (by omega) m1 m2 (pre ++ [k]) (by omega) hgm1 hgm2
          refine ⟨hrec.1, hrec.2.1, ?_⟩
          obtain ⟨suf, hs⟩ := hrec.2.2
          exact ⟨k :: suf, by rw [hs]; simp⟩
        | some m1, none =>
          refine ⟨fun m hm => ?_, fun m hm => ?_, [k], rfl⟩
          · cases Option.some.inj hm; exact getChild_good hg1 hx1
          · exact absurd hm (by simp)
        | none, some m2 =>
          refine ⟨fun m hm => ?_, fun m hm => ?_, [k], rfl⟩
          · exact absurd hm (by simp)
          · cases Option.some.inj hm; exact getChild_good hg2 hx2
        | none, none =>
          refine ⟨fun m hm => ?_, fun m hm => ?_, [k], rfl⟩
          · exact absurd hm (by simp)
          · exact absurd hm (by simp)

theorem walkDiff_progress (n1 n2 : MerkleTrieNode) (pre : List Nat)
    (hg1 : GoodNode n1) (hg2 : GoodNode n2) (hk1 : hasKids n1) (hk2 : hasKids n2) :
    ∃ k suf, (walkDiff n1 n2 pre).pre = pre ++ k :: suf := by
  rw [walkDiff_eq]
  rw [leafish_false_of_hasKids hk1, leafish_false_of_hasKids hk2]
  rw [if_neg (by simp)]
  rw [diffPred_find_head]
  have hne : List.insertionSort (· ≤ ·) (keysOf n1 ++ keysOf n2) ≠ [] := by
    intro hc
    have hp := List.perm_insertionSort (· ≤ ·) (keysOf n1 ++ keysOf n2)
    rw [hc] at hp
    have h2 := hp.symm.eq_nil
    rw [List.append_eq_nil] at h2
    exact keysOf_ne_nil hk1 h2.1
  obtain ⟨k, rest, hkr⟩ := List.exists_cons_of_ne_nil hne
  rw [hkr]
  simp only [List.head?]
  match hx1 : getChild n1 k, hx2 : getChild n2 k with
  | some m1, some m2 =>
    simp only []
    have hrec := walkDiff_good (nodeSize m1) m1 m2 (pre ++ [k]) le_rfl
      (getChild_good hg1 hx1) (getChild_good hg2 hx2)
    obtain ⟨suf, hs⟩ := hrec.2.2
    exact ⟨k, suf, by rw [hs]; simp⟩
  | some m1, none => exact ⟨k, [], rfl⟩
  | none, some m2 => exact ⟨k, [], rfl⟩
  | none, none => exact ⟨k, [], rfl⟩

theorem findFirstKey_ok {BASE : Nat} {n : MerkleTrieNode} {key : List Nat}
    (hg : GoodNode n) : ∃ v, findFirstKey BASE (some n) key = .ok v :=
  findFirstKeyLoop_ok (nodeSize n) n key le_rfl hg

theorem diff_eq_after (BASE : Nat) (a b : MerkleTrie) :
    MerkleTrie.diff BASE a b =
      if a.isEmpty && b.isEmpty then .ok none
      else if a.isEmpty || b.isEmpty then .ok (some 0)
      else if b.isEmpty then (findFirstKey BASE (some b.root) []).map some
      else if a.rootHash = b.rootHash then .ok none
      else diffAfter BASE (walkDiff a.root b.root []) := rfl

theorem diffAfter_ok (BASE : Nat) {w : WalkRes}
    (hpre : w.pre.isEmpty = false)
    (hg1 : ∀ m, w.n1 = some m → GoodNode m)
    (hg2 : ∀ m, w.n2 = some m → GoodNode m) :
    ∃ v, diffAfter BASE w = .ok v := by
  unfold diffAfter
  rw [hpre]
  rw [if_neg (by simp)]
  by_cases hs : (w.s1 || w.s2) = true
  · rw [if_pos hs]; exact ⟨_, rfl⟩
  · rw [if_neg hs]
    match hn1 : w.n1, hn2 : w.n2 with
    | some m1, some m2 =>
      simp only []
      obtain ⟨v1, hv1⟩ := @findFirstKey_ok BASE m1 w.pre (hg1 m1 hn1)
      obtain ⟨v2, hv2⟩ := @findFirstKey_ok BASE m2 w.pre (hg2 m2 hn2)
      rw [hv1, hv2]
      exact ⟨_, rfl⟩
    | some m1, none =>
      simp only []
      obtain ⟨v1, hv1⟩ := @findFirstKey_ok BASE m1 w.pre (hg1 m1 hn1)
      rw [hv1]
      exact ⟨some v1, rfl⟩
    | none, some m2 =>
      simp only []
      obtain ⟨v2, hv2⟩ := @findFirstKey_ok BASE m2 w.pre (hg2 m2 hn2)
      rw [hv2]
      exact ⟨some v2, rfl⟩
    | none, none => exact ⟨_, rfl⟩

theorem build_isEmpty (BASE : Nat) (ts : List Timestamp) :
    (buildTrie BASE ts).isEmpty = ts.isEmpty := by
  unfold MerkleTrie.isEmpty
  rw [build_length]
  cases ts with
  | nil => rfl
  | cons a r => rfl

/-- C10: amended totality of MerkleTrie::diff. The original claim (diff
panics for no pair of tries built by inserts) is refuted by the
counterexample above; under the amendment that every non empty input list
holds at least one timestamp with a non empty key, diff on the two built
tries returns a value and never hits either assert. -/
theorem diff_total (BASE : Nat) (tsa tsb : List Timestamp)
    (ha : tsa ≠ [] → ∃ t ∈ tsa, timestampToKey BASE t ≠ [])
    (hb : tsb ≠ [] → ∃ t ∈ tsb, timestampToKey BASE t ≠ []) :
    ∃ v, MerkleTrie.diff BASE (buildTrie BASE tsa) (buildTrie BASE tsb) = .ok v := by
  by_cases hea : tsa = []
  · by_cases heb : tsb = []
    · subst hea; subst heb
      exact ⟨none, rfl⟩
    · have hia : (buildTrie BASE tsa).isEmpty = true := by
        rw [build_isEmpty, hea]; rfl
      have hib : (buildTrie BASE tsb).isEmpty = false := by
        rw [build_isEmpty]
        cases htb : tsb with
        | nil => exact absurd htb heb
        | cons x r => rfl
      refine ⟨some 0, ?_⟩
      rw [diff_eq_after, hia, hib]
      simp
  · have hia : (buildTrie BASE tsa).isEmpty = false := by
      rw [build_isEmpty]
      cases hta : tsa with
      | nil => exact absurd hta hea
      | cons x r => rfl
    by_cases heb : tsb = []
    · have hib : (buildTrie BASE tsb).isEmpty = true := by
        rw [build_isEmpty, heb]; rfl
      refine ⟨some 0, ?_⟩
      rw [diff_eq_after, hia, hib]
      simp
    · have hib : (buildTrie BASE tsb).isEmpty = false := by
        rw [build_isEmpty]
        cases htb : tsb with
        | nil => exact absurd htb heb
        | cons x r => rfl
      by_cases hh : (buildTrie BASE tsa).rootHash = (buildTrie BASE tsb).rootHash
      · refine ⟨none, ?_⟩
        rw [diff_eq_after, hia, hib]
        simp [hh]
      · have hk1 : hasKids (buildTrie BASE tsa).root := build_hasKids BASE tsa (ha hea)
        have hk2 : hasKids (buildTrie BASE tsb).root := build_hasKids BASE tsb (hb heb)
        have hg1 : GoodNode (buildTrie BASE tsa).root :=
          goodNode_intro (Or.inr hk1) (build_rootOk BASE tsa)
        have hg2 : GoodNode (buildTrie BASE tsb).root :=
          goodNode_intro (Or.inr hk2) (build_rootOk BASE tsb)
        have hpreF : (walkDiff (buildTrie BASE tsa).root (buildTrie BASE tsb).root []).pre.isEmpty = false := by
          obtain ⟨k, suf, hp⟩ := walkDiff_progress _ _ [] hg1 hg2 hk1 hk2
          rw [hp]; rfl
        have hgood := walkDiff_good (nodeSize (buildTrie BASE tsa).root)
          (buildTrie BASE tsa).root (buildTrie BASE tsb).root [] le_rfl hg1 hg2
        rw [diff_eq_after, hia, hib]
        rw [if_neg (by simp), if_neg (by simp), if_neg (by simp), if_neg hh]
        exact diffAfter_ok BASE hpreF hgood.1 hgood.2.1

theorem diff_total_witness :
    ∃ v, MerkleTrie.diff 3 (buildTrie 3 [⟨1, 0, "local"⟩])
      (buildTrie 3 [⟨2, 0, "remote"⟩]) = .ok v :=
  diff_total 3 [⟨1, 0, "local"⟩] [⟨2, 0, "remote"⟩]
    (fun _ => ⟨⟨1, 0, "local"⟩, by decide⟩)
    (fun _ => ⟨⟨2, 0, "remote"⟩, by decide⟩)

set_option maxRecDepth 2000 in
theorem chk400 : chkAll 400 = true := by decide

set_option maxRecDepth 2000 in
theorem chkM366 : chkMon 366 = true := by decide

theorem chkAll_sound : ∀ n, chkAll n = true → ∀ y, y < n → chkYear y = true := by
  intro n
  induction n with
  | zero => intro h y hy; omega
  | succ n ih =>
    intro h y hy
    rw [chkAll, Bool.and_eq_true] at h
    rcases Nat.lt_succ_iff_lt_or_eq.mp hy with h2 | rfl
    · exact ih h.2 y h2
    · exact h.1

theorem chkMon_sound : ∀ n, chkMon n = true → ∀ d, d < n → mpOf d = true := by
  intro n
  induction n with
  | zero => intro h d hd; omega
  | succ n ih =>
    intro h d hd
    rw [chkMon, Bool.and_eq_true] at h
    rcases Nat.lt_succ_iff_lt_or_eq.mp hd with h2 | rfl
    · exact ih h.2 d h2
    · exact h.1

theorem chkYear_unpack {y : Nat} (h : chkYear y = true) :
    yoeOf (dfy y) = y ∧ (dfy (y + 1) ≤ 146096 → yoeOf (dfy (y + 1) - 1) = y) ∧
    dfy (y + 1) - dfy y ≤ 366 ∧ dfy y < dfy (y + 1) := by
  unfold chkYear at h
  simp only [Bool.and_eq_true, beq_iff_eq, decide_eq_true_eq] at h
  exact ⟨h.1.1.1, h.1.1.2, h.1.2, h.2⟩

theorem mpOf_unpack {doy : Nat} (h : mpOf doy = true) :
    (5 * doy + 2) / 153 ≤ 11 ∧ dbm ((5 * doy + 2) / 153) ≤ doy ∧
    doy < dbm ((5 * doy + 2) / 153 + 1) ∧ doy - dbm ((5 * doy + 2) / 153) + 1 ≤ 31 := by
  unfold mpOf at h
  simp only [Bool.and_eq_true, decide_eq_true_eq] at h
  exact ⟨h.1.1.1, h.1.1.2, h.1.2, h.2⟩

theorem yoeOf_step (n : Nat) (h : n + 1 ≤ 146095) : yoeOf n ≤ yoeOf (n + 1) := by
  unfold yoeOf
  omega

theorem yoeOf_mono {a b : Nat} (hab : a ≤ b) (hb : b ≤ 146095) : yoeOf a ≤ yoeOf b := by
  induction b with
  | zero => interval_cases a; exact le_rfl
  | succ b ih =>
    rcases Nat.lt_succ_iff_lt_or_eq.mp (Nat.lt_succ_of_le hab) with h2 | rfl
    · exact le_trans (ih (by omega) (by omega)) (yoeOf_step b hb)
    · exact le_rfl

theorem chkY (y : Nat) (h : y < 400) :
    yoeOf (dfy y) = y ∧ (dfy (y + 1) ≤ 146096 → yoeOf (dfy (y + 1) - 1) = y) ∧
    dfy (y + 1) - dfy y ≤ 366 ∧ dfy y < dfy (y + 1) :=
  chkYear_unpack (chkAll_sound 400 chk400 y h)

theorem dfy_le (y : Nat) (h : y ≤ 400) : dfy y ≤ 146096 := by
  unfold dfy
  omega

/-- Interval facts for the year of era: the day of year lies between 0 and
365 and, short of the last era year, below the next year start. -/
theorem doe_interval {doe : Nat} (h : doe ≤ 146096) :
    yoeOf doe ≤ 399 ∧ dfy (yoeOf doe) ≤ doe ∧ doe - dfy (yoeOf doe) ≤ 365 ∧
    (yoeOf doe ≤ 398 → doe < dfy (yoeOf doe + 1)) := by
  by_cases hd : doe = 146096
  · subst hd
    refine ⟨by decide, by decide, by decide, fun h398 => absurd h398 (by decide)⟩
  · have hdoe : doe ≤ 146095 := by omega
    have hm145 : yoeOf 146095 = 399 := by decide
    have hy399 : yoeOf doe ≤ 399 := by
      have := yoeOf_mono hdoe le_rfl
      omega
    have hlow : dfy (yoeOf doe) ≤ doe := by
      rcases Nat.eq_zero_or_pos (yoeOf doe) with hz | hpos
      · rw [hz]; exact Nat.zero_le _
      · by_contra hcon
        have hend := (chkY (yoeOf doe - 1) (by omega)).2.1
        rw [show yoeOf doe - 1 + 1 = yoeOf doe by omega] at hend
        have hle : dfy (yoeOf doe) ≤ 146096 := dfy_le _ (by omega)
        have hmono := yoeOf_mono (a := doe) (b := dfy (yoeOf doe) - 1) (by omega) (by omega)
        rw [hend hle] at hmono
        omega
    have hrest : doe - dfy (yoeOf doe) ≤ 365 ∧
        (yoeOf doe ≤ 398 → doe < dfy (yoeOf doe + 1)) := by
      by_cases hy398 : yoeOf doe ≤ 398
      · have hnext : doe < dfy (yoeOf doe + 1) := by
          by_contra hcon
          have hfst := (chkY (yoeOf doe + 1) (by omega)).1
          have hmono := yoeOf_mono (a := dfy (yoeOf doe + 1)) (b := doe) (by omega) hdoe
          rw [hfst] at hmono
          omega
        have hgap := (chkY (yoeOf doe) (by omega)).2.2.1
        exact ⟨by omega, fun _ => hnext⟩
      · have hy : yoeOf doe = 399 := by omega
        have hdfy399 : dfy 399 = 145731 := by decide
        rw [hy]
        rw [hy] at hlow
        exact ⟨by omega, fun hc => absurd hc (by omega)⟩
    exact ⟨hy399, hlow, hrest.1, hrest.2⟩

/- ===================== character and padding facts ===================== -/
theorem digitChar_ne_dash (k : Nat) : digitChar k ≠ '-' := by
  unfold digitChar
  split <;> decide

theorem hexChar_ne_dash (k : Nat) : hexChar k ≠ '-' := by
  unfold hexChar
  split <;> decide

theorem hexChar_ne_plus (k : Nat) : hexChar k ≠ '+' := by
  unfold hexChar
  split <;> decide

theorem charDigit_digitChar (k : Nat) (h : k < 10) : charDigit? (digitChar k) = some k := by
  interval_cases k <;> decide

theorem charHex_hexChar (k : Nat) (h : k < 16) : charHex? (hexChar k) = some k := by
  interval_cases k <;> decide

theorem dash_notin_pad2 (n : Nat) : '-' ∉ pad2 n := by
  intro h
  simp only [pad2, List.mem_cons, List.not_mem_nil, or_false] at h
  rcases h with h | h <;> exact digitChar_ne_dash _ h.symm

theorem dash_notin_pad3 (n : Nat) : '-' ∉ pad3 n := by
  intro h
  simp only [pad3, List.mem_cons, List.not_mem_nil, or_false] at h
  rcases h with h | h | h <;> exact digitChar_ne_dash _ h.symm

theorem dash_notin_pad4 (n : Nat) : '-' ∉ pad4 n := by
  intro h
  simp only [pad4, List.mem_cons, List.not_mem_nil, or_false] at h
  rcases h with h | h | h | h <;> exact digitChar_ne_dash _ h.symm

theorem dash_notin_hex4 (n : Nat) (hn : n < 65536) : '-' ∉ hex4 n := by
  intro h
  unfold hex4 at h
  rw [if_pos hn] at h
  simp only [List.mem_cons, List.not_mem_nil, or_false] at h
  rcases h with h | h | h | h <;> exact hexChar_ne_dash _ h.symm

theorem pad16Node_id (cs : List Char) (h : cs.length = 16) : pad16Node cs = cs := by
  unfold pad16Node
  rw [h]
  simp

/- ===================== split and join facts ===================== -/
theorem splitChar_sepFree {sep : Char} : ∀ {xs : List Char}, sep ∉ xs →
    splitChar sep xs = [xs] := by
  intro xs
  induction xs with
  | nil => intro h; rfl
  | cons c cs ih =>
    intro h
    have hc : ¬(c = sep) := fun he => h (he ▸ List.mem_cons_self c cs)
    conv_lhs => unfold splitChar
    rw [if_neg hc, ih (fun hm => h (List.mem_cons_of_mem c hm))]

theorem splitChar_append {sep : Char} : ∀ {xs : List Char} (ys : List Char), sep ∉ xs →
    splitChar sep (xs ++ sep :: ys) = xs :: splitChar sep ys := by
  intro xs
  induction xs with
  | nil =>
    intro ys h
    show splitChar sep (sep :: ys) = [] :: splitChar sep ys
    conv_lhs => unfold splitChar
    rw [if_pos rfl]
  | cons c cs ih =>
    intro ys h
    have hc : ¬(c = sep) := fun he => h (he ▸ List.mem_cons_self c cs)
    show splitChar sep (c :: (cs ++ sep :: ys)) = (c :: cs) :: splitChar sep ys
    conv_lhs => unfold splitChar
    rw [if_neg hc, ih ys (fun hm => h (List.mem_cons_of_mem c hm))]

theorem twoDigits_pad2 (n : Nat) (h : n < 100) :
    twoDigits (digitChar (n / 10 % 10)) (digitChar (n % 10)) = some n := by
  unfold twoDigits
  rw [charDigit_digitChar _ (by omega), charDigit_digitChar _ (by omega)]
  show some (10 * (n / 10 % 10) + n % 10) = some n
  exact congrArg some (by omega)

theorem fourDigits_pad4 (n : Nat) (h : n < 10000) :
    fourDigits (digitChar (n / 1000 % 10)) (digitChar (n / 100 % 10))
      (digitChar (n / 10 % 10)) (digitChar (n % 10)) = some n := by
  unfold fourDigits
  rw [charDigit_digitChar _ (by omega), charDigit_digitChar _ (by omega),
    charDigit_digitChar _ (by omega), charDigit_digitChar _ (by omega)]
  show some (1000 * (n / 1000 % 10) + 100 * (n / 100 % 10) + 10 * (n / 10 % 10) + n % 10) = some n
  exact congrArg some (by omega)

theorem parseHexNat_hexChars (a b c d : Nat) (ha : a < 16) (hb : b < 16)
    (hc : c < 16) (hd : d < 16) :
    parseHexNat [hexChar a, hexChar b, hexChar c, hexChar d] =
      some (((a * 16 + b) * 16 + c) * 16 + d) := by
  unfold parseHexNat
  split
  next rest heq => exact absurd (by exact (List.cons.inj heq.symm).1.symm) (hexChar_ne_plus a)
  next =>
    simp only [List.foldl_cons, List.foldl_nil]
    rw [charHex_hexChar _ ha, charHex_hexChar _ hb, charHex_hexChar _ hc, charHex_hexChar _ hd]
    simp only []
    rw [if_neg (show ¬([hexChar a, hexChar b, hexChar c, hexChar d].isEmpty = true) by simp)]
    rw [if_pos (show 0 * 16 + a < 18446744073709551616 by omega)]
    simp only []
    rw [if_pos (show (0 * 16 + a) * 16 + b < 18446744073709551616 by omega)]
    simp only []
    rw [if_pos (show ((0 * 16 + a) * 16 + b) * 16 + c < 18446744073709551616 by omega)]
    simp only []
    rw [if_pos (show (((0 * 16 + a) * 16 + b) * 16 + c) * 16 + d < 18446744073709551616 by omega)]
    exact congrArg some (by omega)

theorem parseHexNat_hex4 (c : Nat) (h : c ≤ 65535) : parseHexNat (hex4 c) = some c := by
  unfold hex4
  rw [if_pos (by omega)]
  rw [parseHexNat_hexChars _ _ _ _ (by omega) (by omega) (by omega) (by omega)]
  exact congrArg some (by omega)

theorem parseFrac_nofrac (tl : List Char) : parseFrac ('+' :: tl) = some (0, '+' :: tl) := rfl

theorem parseFrac_pad3 (ms : Nat) (tl : List Char) (h : ms < 1000) :
    parseFrac ('.' :: (pad3 ms ++ '+' :: tl)) = some (ms, '+' :: tl) := by
  have e1 := charDigit_digitChar (ms / 100 % 10) (by omega)
  have e2 := charDigit_digitChar (ms / 10 % 10) (by omega)
  have e3 := charDigit_digitChar (ms % 10) (by omega)
  unfold parseFrac
  simp only [pad3, List.cons_append, List.nil_append, List.span_eq_take_drop,
    List.takeWhile_cons, List.dropWhile_cons, e1, e2, e3, Option.isSome_some,
    if_true, List.length_cons, List.replicate]
  have hplus : charDigit? '+' = none := by decide
  simp only [hplus, Option.isSome_none, Bool.false_eq_true, if_false, List.length_nil]
  rw [if_neg (by omega)]
  have hv : 100 * (ms / 100 % 10) + 10 * (ms / 10 % 10) + ms % 10 = ms := by omega
  rw [hv]

theorem parseRfc_step (y1 y2 y3 y4 o1 o2 d1 d2 h1 h2 n1 n2 s1 s2 : Char) (rest : List Char) :
    parseRfc3339Millis (y1 :: y2 :: y3 :: y4 :: '-' :: o1 :: o2 :: '-' :: d1 :: d2 :: 'T' ::
      h1 :: h2 :: ':' :: n1 :: n2 :: ':' :: s1 :: s2 :: rest) =
      match fourDigits y1 y2 y3 y4, twoDigits o1 o2, twoDigits d1 d2, twoDigits h1 h2,
          twoDigits n1 n2, twoDigits s1 s2 with
      | some y, some mo, some d, some h, some mi, some s =>
        (match parseFrac rest with
          | some (ms, rest2) =>
            (match parseOffsetMs rest2 with
              | some off =>
                if 1 ≤ mo ∧ mo ≤ 12 ∧ 1 ≤ d ∧ d ≤ daysInMonth (y : Int) mo ∧
                    h < 24 ∧ mi < 60 ∧ s < 60 then
                  some (daysFromCivil (y : Int) mo d * 86400000 +
                    ((h * 3600000 + mi * 60000 + s * 1000 + ms : Nat) : Int) - off)
                else none
              | none => none)
          | none => none)
      | _, _, _, _, _, _ => none := rfl

theorem daysInMonth_le (y : Int) (m : Nat) : daysInMonth y m ≤ 31 := by
  unfold daysInMonth
  split <;> try omega
  split <;> omega

theorem parse_renderDT (y mo dd hh mi ss ms : Nat) (hy : y < 10000)
    (hmo1 : 1 ≤ mo) (hmo2 : mo ≤ 12) (hd1 : 1 ≤ dd) (hd2 : dd ≤ daysInMonth (y : Int) mo)
    (hh24 : hh < 24) (hmi : mi < 60) (hss : ss < 60) (hms : ms < 1000) :
    parseRfc3339Millis (renderDT y mo dd hh mi ss ms) =
      some (daysFromCivil (y : Int) mo dd * 86400000 +
        ((hh * 3600000 + mi * 60000 + ss * 1000 + ms : Nat) : Int)) := by
  have hdm := daysInMonth_le (y : Int) mo
  unfold renderDT
  simp only [pad4, pad2, List.cons_append, List.nil_append]
  rw [parseRfc_step]
  rw [fourDigits_pad4 y (by omega), twoDigits_pad2 mo (by omega), twoDigits_pad2 dd (by omega),
    twoDigits_pad2 hh (by omega), twoDigits_pad2 mi (by omega), twoDigits_pad2 ss (by omega)]
  simp only []
  by_cases hms0 : ms = 0
  · rw [if_pos hms0]
    rw [show ([] : List Char) ++ ['+', '0', '0', ':', '0', '0'] = '+' :: ['0', '0', ':', '0', '0'] from rfl]
    rw [parseFrac_nofrac]
    simp only []
    rw [show parseOffsetMs ('+' :: ['0', '0', ':', '0', '0']) = some 0 from by decide]
    simp only []
    rw [if_pos ⟨hmo1, hmo2, hd1, hd2, hh24, hmi, hss⟩]
    subst hms0
    exact congrArg some (by omega)
  · rw [if_neg hms0]
    rw [show ('.' :: pad3 ms) ++ ['+', '0', '0', ':', '0', '0'] =
      '.' :: (pad3 ms ++ '+' :: ['0', '0', ':', '0', '0']) from by simp]
    rw [parseFrac_pad3 ms _ (by omega)]
    simp only []
    rw [show parseOffsetMs ('+' :: ['0', '0', ':', '0', '0']) = some 0 from by decide]
    simp only []
    rw [if_pos ⟨hmo1, hmo2, hd1, hd2, hh24, hmi, hss⟩]
    exact congrArg some (by omega)

theorem civilOfDoe_eq (doe : Nat) :
    civilOfDoe doe =
      (yoeOf doe + (if (if (5 * (doe - dfy (yoeOf doe)) + 2) / 153 < 10
          then (5 * (doe - dfy (yoeOf doe)) + 2) / 153 + 3
          else (5 * (doe - dfy (yoeOf doe)) + 2) / 153 - 9) ≤ 2 then 1 else 0),
        (if (5 * (doe - dfy (yoeOf doe)) + 2) / 153 < 10
          then (5 * (doe - dfy (yoeOf doe)) + 2) / 153 + 3
          else (5 * (doe - dfy (yoeOf doe)) + 2) / 153 - 9),
        doe - dfy (yoeOf doe) - dbm ((5 * (doe - dfy (yoeOf doe)) + 2) / 153) + 1) := rfl

theorem daysFromCivil_eq (y : Int) (m d : Nat) :
    daysFromCivil y m d =
      (y - (if m ≤ 2 then 1 else 0)) / 400 * 146097 +
      ((365 * ((y - (if m ≤ 2 then 1 else 0)) % 400).toNat +
        ((y - (if m ≤ 2 then 1 else 0)) % 400).toNat / 4 -
        ((y - (if m ≤ 2 then 1 else 0)) % 400).toNat / 100 +
        ((153 * (if 2 < m then m - 3 else m + 9) + 2) / 5 + d - 1) : Nat) : Int) - 719468 := rfl

theorem yearChars_eq_pad4 (y : Int) (h0 : 0 ≤ y) (h1 : y ≤ 9999) :
    yearChars y = pad4 y.toNat := by
  unfold yearChars
  rw [if_neg (by omega), if_pos h1]

theorem le_daysInMonth (y : Int) (m d2 : Nat) (h1 : 1 ≤ m) (h2 : m ≤ 12)
    (h31 : d2 ≤ 31)
    (h30 : m = 4 ∨ m = 6 ∨ m = 9 ∨ m = 11 → d2 ≤ 30)
    (hfeb : m = 2 → d2 ≤ 28 ∨ (d2 = 29 ∧ isLeapYear y = true)) :
    d2 ≤ daysInMonth y m := by
  interval_cases m
  · exact h31
  · rcases hfeb rfl with h | ⟨h29, hleap⟩
    · by_cases hl : isLeapYear y = true
      · show d2 ≤ if isLeapYear y then 29 else 28
        rw [if_pos hl]; omega
      · show d2 ≤ if isLeapYear y then 29 else 28
        rw [if_neg hl]; omega
    · show d2 ≤ if isLeapYear y then 29 else 28
      rw [if_pos hleap]
      omega
  · exact h31
  · exact h30 (by omega)
  · exact h31
  · exact h30 (by omega)
  · exact h31
  · exact h31
  · exact h30 (by omega)
  · exact h31
  · exact h30 (by omega)
  · exact h31

set_option maxHeartbeats 1000000 in
/-- Inversion of the civil-from-days computation for a day of era, with the
year bound that keeps the rendered year at four digits. -/
theorem civil_inverse (era : Int) (doe : Nat) (hera0 : 0 ≤ era) (hera24 : era ≤ 24)
    (htight : era = 24 → doe ≤ 146036) (hdoe : doe ≤ 146096) :
    1 ≤ (civilOfDoe doe).2.1 ∧ (civilOfDoe doe).2.1 ≤ 12 ∧
    1 ≤ (civilOfDoe doe).2.2 ∧
    (civilOfDoe doe).2.2 ≤ daysInMonth (era * 400 + ((civilOfDoe doe).1 : Int)) (civilOfDoe doe).2.1 ∧
    0 ≤ era * 400 + ((civilOfDoe doe).1 : Int) ∧
    era * 400 + ((civilOfDoe doe).1 : Int) ≤ 9999 ∧
    daysFromCivil (era * 400 + ((civilOfDoe doe).1 : Int)) (civilOfDoe doe).2.1 (civilOfDoe doe).2.2 =
      era * 146097 + (doe : Int) - 719468 := by
  have hI := doe_interval hdoe
  have hM := mpOf_unpack (chkMon_sound 366 chkM366 (doe - dfy (yoeOf doe)) (by omega))
  have hgap := (chkY (yoeOf doe) (by omega)).2.2.1
  have hmono := (chkY (yoeOf doe) (by omega)).2.2.2
  have hyoe399 : yoeOf doe ≤ 399 := hI.1
  rw [civilOfDoe_eq doe]
  rw [daysFromCivil_eq]
  dsimp only []
  simp only [dbm] at hM ⊢
  simp only [dfy] at hI hM hgap hmono ⊢
  by_cases hmp10 : (5 * (doe - (365 * yoeOf doe + yoeOf doe / 4 - yoeOf doe / 100)) + 2) / 153 < 10
  · have hm33 : (5 * (doe - (365 * yoeOf doe + yoeOf doe / 4 - yoeOf doe / 100)) + 2) / 153 + 3 - 3
        = (5 * (doe - (365 * yoeOf doe + yoeOf doe / 4 - yoeOf doe / 100)) + 2) / 153 := by omega
    simp only [if_pos hmp10, hm33,
      if_neg (show ¬((5 * (doe - (365 * yoeOf doe + yoeOf doe / 4 - yoeOf doe / 100)) + 2) / 153 + 3 ≤ 2) from by omega),
      if_pos (show 2 < (5 * (doe - (365 * yoeOf doe + yoeOf doe / 4 - yoeOf doe / 100)) + 2) / 153 + 3 from by omega)]
    simp only [Nat.add_zero, sub_zero]
    have hyq : (era * 400 + ((yoeOf doe : Nat) : Int)) / 400 = era := by omega
    have hyr : ((era * 400 + ((yoeOf doe : Nat) : Int)) % 400).toNat = yoeOf doe := by omega
    rw [hyq, hyr]
    refine ⟨by omega, by omega, by omega, ?_, by omega, by omega, by omega⟩
    apply le_daysInMonth _ _ _ (by omega) (by omega) (by omega) (fun hm => by omega)
    intro hm
    exact absurd hm (by omega)
  · have hm99 : (5 * (doe - (365 * yoeOf doe + yoeOf doe / 4 - yoeOf doe / 100)) + 2) / 153 - 9 + 9
        = (5 * (doe - (365 * yoeOf doe + yoeOf doe / 4 - yoeOf doe / 100)) + 2) / 153 := by omega
    simp only [if_neg hmp10, hm99,
      if_pos (show (5 * (doe - (365 * yoeOf doe + yoeOf doe / 4 - yoeOf doe / 100)) + 2) / 153 - 9 ≤ 2 from by omega),
      if_neg (show ¬(2 < (5 * (doe - (365 * yoeOf doe + yoeOf doe / 4 - yoeOf doe / 100)) + 2) / 153 - 9) from by omega)]
    have hyq : (era * 400 + ((yoeOf doe + 1 : Nat) : Int) - 1) / 400 = era := by omega
    have hyr : ((era * 400 + ((yoeOf doe + 1 : Nat) : Int) - 1) % 400).toNat = yoeOf doe := by omega
    rw [hyq, hyr]
    have hy9999 : era * 400 + ((yoeOf doe + 1 : Nat) : Int) ≤ 9999 := by
      by_cases hera : era = 24
      · have h36 := htight hera
        subst hera
        omega
      · omega
    refine ⟨by omega, by omega, by omega, ?_, by omega, hy9999, by omega⟩
    apply le_daysInMonth _ _ _ (by omega) (by omega) (by omega) (fun hm => by omega)
    intro hm
    have hmp11 : (5 * (doe - (365 * yoeOf doe + yoeOf doe / 4 - yoeOf doe / 100)) + 2) / 153 = 11 := by omega
    by_cases h364 : doe - (365 * yoeOf doe + yoeOf doe / 4 - yoeOf doe / 100) ≤ 364
    · exact Or.inl (by omega)
    · refine Or.inr ⟨by omega, ?_⟩
      by_cases h399 : yoeOf doe = 399
      · exact decide_eq_true (by omega)
      · have hnext := hI.2.2.2 (by omega)
        simp only [dfy] at hnext
        have hlow2 : 365 * yoeOf doe + yoeOf doe / 4 - yoeOf doe / 100 ≤ doe := hI.2.1
        have h3652 : doe - (365 * yoeOf doe + yoeOf doe / 4 - yoeOf doe / 100) ≤ 365 := hI.2.2.1
        have hdiv : (yoeOf doe + 1) % 4 = 0 ∧ ¬((yoeOf doe + 1) % 100 = 0) := by
          clear hyq hyr hy9999 hera24 hera0 htight hI hM hdoe
          omega
        exact decide_eq_true (by omega)

/-- The rendered datetime of a millisecond value in the four digit year
range has the canonical shape, with in-range fields that map back to the
same millisecond value. -/
theorem millisToDT_render (millis : Int) (h0 : 0 ≤ millis) (h1 : millis < 253402300800000) :
    ∃ y mo dd hh mi ss ms,
      millisToDatetimeChars millis = renderDT y mo dd hh mi ss ms ∧
      y < 10000 ∧ 1 ≤ mo ∧ mo ≤ 12 ∧ 1 ≤ dd ∧ dd ≤ daysInMonth (y : Int) mo ∧
      hh < 24 ∧ mi < 60 ∧ ss < 60 ∧ ms < 1000 ∧
      daysFromCivil (y : Int) mo dd * 86400000 +
        ((hh * 3600000 + mi * 60000 + ss * 1000 + ms : Nat) : Int) = millis := by
  have hrange : ¬(millis < chronoMinMillis ∨ chronoMaxMillis < millis) := by
    have hlo : chronoMinMillis < 0 := by decide
    have hhi : (253402300800000 : Int) ≤ chronoMaxMillis := by decide
    omega
  have hC := civil_inverse ((millis / 86400000 + 719468) / 146097)
    (((millis / 86400000 + 719468) % 146097).toNat)
    (by omega) (by omega) (fun h => by omega) (by omega)
  obtain ⟨hmo1, hmo12, hdd1, hddM, hy0, hy9999, hdfc⟩ := hC
  have hyNat : ((((millis / 86400000 + 719468) / 146097 * 400 +
        ((civilOfDoe (((millis / 86400000 + 719468) % 146097).toNat)).1 : Int)).toNat : Nat) : Int) =
      (millis / 86400000 + 719468) / 146097 * 400 +
        ((civilOfDoe (((millis / 86400000 + 719468) % 146097).toNat)).1 : Int) := by omega
  refine ⟨((millis / 86400000 + 719468) / 146097 * 400 +
      ((civilOfDoe (((millis / 86400000 + 719468) % 146097).toNat)).1 : Int)).toNat,
    (civilOfDoe (((millis / 86400000 + 719468) % 146097).toNat)).2.1,
    (civilOfDoe (((millis / 86400000 + 719468) % 146097).toNat)).2.2,
    (millis % 86400000).toNat / 3600000,
    (millis % 86400000).toNat / 60000 % 60,
    (millis % 86400000).toNat / 1000 % 60,
    (millis % 86400000).toNat % 1000,
    ?_, by omega, hmo1, hmo12, hdd1, ?_, by omega, by omega, by omega, by omega, ?_⟩
  · unfold millisToDatetimeChars renderDT
    simp only [if_neg hrange]
    rw [yearChars_eq_pad4 _ hy0 hy9999]
  · rw [hyNat]
    exact hddM
  · rw [hyNat, hdfc]
    omega

theorem notMemAppend {c : Char} {a b : List Char} (h1 : c ∉ a) (h2 : c ∉ b) :
    c ∉ a ++ b := fun h => (List.mem_append.mp h).elim h1 h2

theorem notMemCons {c x : Char} {l : List Char} (h1 : ¬(c = x)) (h2 : c ∉ l) :
    c ∉ x :: l := fun h => (List.mem_cons.mp h).elim h1 h2

theorem splitChar_five (p1 p2 p3 p4 p5 : List Char)
    (h1 : '-' ∉ p1) (h2 : '-' ∉ p2) (h3 : '-' ∉ p3) (h4 : '-' ∉ p4) (h5 : '-' ∉ p5) :
    splitChar '-' ((p1 ++ '-' :: (p2 ++ '-' :: p3)) ++ '-' :: (p4 ++ '-' :: p5)) =
      [p1, p2, p3, p4, p5] := by
  rw [List.append_assoc, List.cons_append]
  rw [splitChar_append _ h1]
  rw [List.append_assoc, List.cons_append]
  rw [splitChar_append _ h2]
  rw [splitChar_append _ h3]
  rw [splitChar_append _ h4]
  rw [splitChar_sepFree h5]

theorem parse_parts_eval (s : String) (p1 p2 p3 p4 p5 : List Char)
    (hsp : splitChar '-' s.data = [p1, p2, p3, p4, p5])
    (m : Int) (hrfc : parseRfc3339Millis (intercalChar '-' [p1, p2, p3]) = some m)
    (c : Nat) (hhex : parseHexNat p4 = some c) :
    Timestamp.parse s = .ok ⟨m, c, String.mk p5⟩ := by
  unfold Timestamp.parse
  rw [hsp]
  simp only []
  rw [hrfc]
  simp only []
  rw [hhex]

set_option maxHeartbeats 2000000 in
/-- C8: for every valid timestamp (node of exactly sixteen characters none
of which is a dash, counter at most 0xFFFF, millis non negative and below
the four digit year bound 253402300800000 that the rfc3339 rendering and
reparse support), Timestamp::parse of Timestamp::to_string returns the
same timestamp. -/
theorem parse_toString_roundtrip (t : Timestamp)
    (hm0 : 0 ≤ t.millis) (hm1 : t.millis < 253402300800000)
    (hc : t.counter ≤ 65535)
    (hn16 : t.node.data.length = 16) (hnd : '-' ∉ t.node.data) :
    Timestamp.parse (Timestamp.toString t) = .ok t := by
  obtain ⟨y, mo, dd, hh, mi, ss, ms, hshape, hy, hmo1, hmo12, hdd1, hddM, hh24, hmi, hss, hms, hval⟩ :=
    millisToDT_render t.millis hm0 hm1
  have hfrac : '-' ∉ (if ms = 0 then ([] : List Char) else '.' :: pad3 ms) := by
    by_cases hms0 : ms = 0
    · rw [if_pos hms0]; exact List.not_mem_nil _
    · rw [if_neg hms0]
      exact notMemCons (by decide) (dash_notin_pad3 ms)
  have hrest2 : '-' ∉ pad2 dd ++ ('T' :: (pad2 hh ++ (':' :: (pad2 mi ++ (':' :: (pad2 ss ++ ((if ms = 0 then ([] : List Char) else '.' :: pad3 ms) ++ ['+', '0', '0', ':', '0', '0']))))))) :=
    notMemAppend (dash_notin_pad2 dd) (notMemCons (by decide)
      (notMemAppend (dash_notin_pad2 hh) (notMemCons (by decide)
        (notMemAppend (dash_notin_pad2 mi) (notMemCons (by decide)
          (notMemAppend (dash_notin_pad2 ss)
            (notMemAppend hfrac (by decide))))))))
  have hpad16 : '-' ∉ pad16Node t.node.data := by
    rw [pad16Node_id _ hn16]
    exact hnd
  have hform : t.toChars = (pad4 y ++ '-' :: (pad2 mo ++ '-' :: (pad2 dd ++ ('T' :: (pad2 hh ++ (':' :: (pad2 mi ++ (':' :: (pad2 ss ++ ((if ms = 0 then ([] : List Char) else '.' :: pad3 ms) ++ ['+', '0', '0', ':', '0', '0'])))))))))) ++
      '-' :: (hex4 t.counter ++ '-' :: pad16Node t.node.data) := by
    unfold Timestamp.toChars
    rw [hshape]
    unfold renderDT
    simp only [List.append_assoc, List.cons_append, List.nil_append]
  have hre : pad4 y ++ '-' :: (pad2 mo ++ '-' :: (pad2 dd ++ ('T' :: (pad2 hh ++ (':' :: (pad2 mi ++ (':' :: (pad2 ss ++ ((if ms = 0 then ([] : List Char) else '.' :: pad3 ms) ++ ['+', '0', '0', ':', '0', '0']))))))))) = renderDT y mo dd hh mi ss ms := by
    unfold renderDT
    simp only [List.append_assoc, List.cons_append, List.nil_append]
  have hsplit : splitChar '-' t.toChars =
      [pad4 y, pad2 mo, pad2 dd ++ ('T' :: (pad2 hh ++ (':' :: (pad2 mi ++ (':' :: (pad2 ss ++ ((if ms = 0 then ([] : List Char) else '.' :: pad3 ms) ++ ['+', '0', '0', ':', '0', '0']))))))), hex4 t.counter, pad16Node t.node.data] := by
    rw [hform]
    exact splitChar_five _ _ _ _ _ (dash_notin_pad4 y) (dash_notin_pad2 mo) hrest2
      (dash_notin_hex4 t.counter (by omega)) hpad16
  have hrfc : parseRfc3339Millis (intercalChar '-'
      [pad4 y, pad2 mo, pad2 dd ++ ('T' :: (pad2 hh ++ (':' :: (pad2 mi ++ (':' :: (pad2 ss ++ ((if ms = 0 then ([] : List Char) else '.' :: pad3 ms) ++ ['+', '0', '0', ':', '0', '0'])))))))]) = some t.millis := by
    rw [show intercalChar '-'
      [pad4 y, pad2 mo, pad2 dd ++ ('T' :: (pad2 hh ++ (':' :: (pad2 mi ++ (':' :: (pad2 ss ++ ((if ms = 0 then ([] : List Char) else '.' :: pad3 ms) ++ ['+', '0', '0', ':', '0', '0'])))))))] =
      pad4 y ++ '-' :: (pad2 mo ++ '-' :: (pad2 dd ++ ('T' :: (pad2 hh ++ (':' :: (pad2 mi ++ (':' :: (pad2 ss ++ ((if ms = 0 then ([] : List Char) else '.' :: pad3 ms) ++ ['+', '0', '0', ':', '0', '0']))))))))) from rfl]
    rw [hre, parse_renderDT y mo dd hh mi ss ms hy hmo1 hmo12 hdd1 hddM hh24 hmi hss hms, hval]
  have hfin := parse_parts_eval (Timestamp.toString t) (pad4 y) (pad2 mo)
    (pad2 dd ++ ('T' :: (pad2 hh ++ (':' :: (pad2 mi ++ (':' :: (pad2 ss ++ ((if ms = 0 then ([] : List Char) else '.' :: pad3 ms) ++ ['+', '0', '0', ':', '0', '0'])))))))) (hex4 t.counter) (pad16Node t.node.data) hsplit t.millis hrfc t.counter
    (parseHexNat_hex4 t.counter hc)
  rw [hfin, pad16Node_id _ hn16]

theorem parse_toString_roundtrip_witness :
    Timestamp.parse (Timestamp.toString ⟨1712898800831, 0, "5ef35ca3375b14c8"⟩) =
      .ok ⟨1712898800831, 0, "5ef35ca3375b14c8"⟩ :=
  parse_toString_roundtrip ⟨1712898800831, 0, "5ef35ca3375b14c8"⟩
    (by decide) (by decide) (by decide) (by decide) (by decide)
